import Mathlib

/-!
# Verification of the `vanish` on-ledger repository registry

Shallow embedding of `src/packages/program/src/lib.rs` (an Anchor/Solana
program).  Records (Repository, Collaborator, Star) live at deterministically
derived addresses; each instruction is modelled as the Anchor account
constraints declared in its `#[derive(Accounts)]` context (seeds
re-derivation, `bump`, `has_one`, `init`, `close`) followed by the
instruction body, acting on an explicit ledger state.

Modelling conventions:
* `Pubkey` is an abstract identity (`Nat`).
* Address derivation (`seeds = [tag, key, ...]`) is modelled by the inductive
  `Addr`, one constructor per seed tag; constructor injectivity models the
  collision-freedom of PDA derivation.  The disambiguation nonce ("bump") is
  an abstract deterministic function of the derived address.
* Rust `String::len` counts UTF-8 bytes, modelled by `strLen`.
* `u64` star counts are `Nat`s kept below `2^64`; `checked_add(1).unwrap_or`
  and `saturating_sub(1)` are modelled on that range.
* Anchor constraint failures (`seeds`, `bump`, `has_one` mismatch) are
  reported as `VanishError.unauthorized`, the error the program reserves for
  derivation/owner mismatch; store-level failures of `init` and account
  lookup are `alreadyInUse` / `notFound`.
* Rent/fee accounting is external to the program; an operation reports who
  pays for a created record and who receives a closed record's refund
  (`charge` / `refund`), without maintaining balances.
* Each operation is atomic: it either returns a complete new state or an
  error leaving the state untouched.
-/

namespace Vanish

/-- An abstract ledger identity (a 32-byte public key in the source). -/
abbrev Pubkey := Nat

/-- Derived record addresses.  One constructor per seed tag used by the
program: `[b"repo", owner, name]`, `[b"collab", repository, user]`,
`[b"star", user, repository]`. -/
inductive Addr : Type where
  | repoA (owner : Pubkey) (name : String) : Addr
  | collabA (repository : Addr) (user : Pubkey) : Addr
  | starA (user : Pubkey) (repository : Addr) : Addr
deriving DecidableEq, Repr

/-- The disambiguation nonce ("bump") found during derivation: an abstract
deterministic function of the derived address.  The program only ever stores
the bump found at `init` and re-checks it on later access, so any fixed
deterministic choice is faithful. -/
def canonicalBump (_ : Addr) : Nat := 255

/-- Rust `String::len()`: the number of UTF-8 bytes. -/
def strLen (s : String) : Nat := s.utf8ByteSize

/-- `u64::MAX`. -/
def u64Max : Nat := 2 ^ 64 - 1

/-- The `Repository` account (`#[account] pub struct Repository`). -/
structure Repository : Type where
  owner : Pubkey
  name : String
  description : String
  is_private : Bool
  created_at : Int
  updated_at : Int
  head_commit : String
  ipfs_cid : String
  stars : Nat
  bump : Nat
deriving DecidableEq, Repr

/-- `Repository::SPACE`. -/
def Repository.SPACE : Nat :=
  8 + 32 + (4 + 64) + (4 + 256) + 1 + 8 + 8 + (4 + 40) + (4 + 64) + 8 + 1

/-- The `Collaborator` account. -/
structure Collaborator : Type where
  repository : Addr
  user : Pubkey
  can_push : Bool
  added_at : Int
  bump : Nat
deriving DecidableEq, Repr

/-- `Collaborator::SPACE`. -/
def Collaborator.SPACE : Nat := 8 + 32 + 32 + 1 + 8 + 1

/-- The `Star` account. -/
structure Star : Type where
  user : Pubkey
  repository : Addr
  starred_at : Int
  bump : Nat
deriving DecidableEq, Repr

/-- `Star::SPACE`. -/
def Star.SPACE : Nat := 8 + 32 + 32 + 8 + 1

/-- Errors an operation can fail with: the program's `VanishError` variants,
plus the store-level failures surfaced by Anchor account resolution
(`alreadyInUse` for `init` on an occupied address, `notFound` for a missing
account). -/
inductive VanishError : Type where
  | nameTooLong
  | descriptionTooLong
  | nameEmpty
  | invalidCommitHash
  | invalidIpfsCid
  | unauthorized
  | alreadyInUse
  | notFound
deriving DecidableEq, Repr

/-- Events emitted by the program (`#[event]` structs). -/
inductive Event : Type where
  | repoCreated (owner : Pubkey) (name : String) (is_private : Bool)
      (timestamp : Int)
  | repoPushed (owner : Pubkey) (name : String) (head_commit : String)
      (ipfs_cid : String) (timestamp : Int)
  | collaboratorAdded (repository : Addr) (collaborator : Pubkey)
      (can_push : Bool) (timestamp : Int)
  | repoStarred (user : Pubkey) (repository : Addr) (timestamp : Int)
  | ownershipTransferred (repository : Addr) (old_owner : Pubkey)
      (new_owner : Pubkey)
deriving DecidableEq, Repr

/-- Association-list lookup keyed by derived address (first match). -/
def lookupA {α : Type} : List (Addr × α) → Addr → Option α
  | [], _ => none
  | (k, v) :: rest, a => if k = a then some v else lookupA rest a

/-- In-place mutation of the record at an address (first match). -/
def updateA {α : Type} : List (Addr × α) → Addr → α → List (Addr × α)
  | [], _, _ => []
  | (k, v) :: rest, a, w =>
      if k = a then (k, w) :: rest else (k, v) :: updateA rest a w

/-- Closing a record: every entry at the address is removed. -/
def eraseA {α : Type} : List (Addr × α) → Addr → List (Addr × α)
  | [], _ => []
  | (k, v) :: rest, a =>
      if k = a then eraseA rest a else (k, v) :: eraseA rest a

/-- The persisted-record space: each record type keyed by derived address. -/
structure State : Type where
  repos : List (Addr × Repository)
  collabs : List (Addr × Collaborator)
  stars : List (Addr × Star)
deriving DecidableEq, Repr

/-- The empty ledger. -/
def initState : State := ⟨[], [], []⟩

/-- Result of a successful operation: the new state, the emitted event if
any, who paid for a created record's reserved space, and who received a
closed record's refund. -/
structure TxOut : Type where
  state : State
  event : Option Event
  charge : Option (Pubkey × Nat)
  refund : Option (Pubkey × Nat)
deriving DecidableEq, Repr

/-- `create_repo` (instruction body, lib.rs:10-42) together with the
`CreateRepo` account constraints (lib.rs:159-175): `init` at
`seeds = [b"repo", owner, name]` fails if the address is occupied; the body
then validates name and description lengths and writes the fresh record. -/
def create_repo (s : State) (caller : Pubkey) (name description : String)
    (is_private : Bool) (now : Int) : Except VanishError TxOut :=
  let addr := Addr.repoA caller name
  match lookupA s.repos addr with
  | some _ => .error .alreadyInUse
  | none =>
    if strLen name > 64 then .error .nameTooLong
    else if strLen description > 256 then .error .descriptionTooLong
    else if strLen name = 0 then .error .nameEmpty
    else .ok
      { state := { s with repos :=
          (addr,
            { owner := caller
              name := name
              description := description
              is_private := is_private
              created_at := now
              updated_at := now
              head_commit := ""
              ipfs_cid := ""
              stars := 0
              bump := canonicalBump addr }) :: s.repos }
        event := some (.repoCreated caller name is_private now)
        charge := some (caller, Repository.SPACE)
        refund := none }

/-- `push_update` (lib.rs:45-69) with the `PushUpdate` constraints
(lib.rs:177-188): the repository account must exist, its address must
re-derive from the caller and the stored name with the stored bump, and
`has_one = owner` must hold; then the body validates the commit hash and CID
lengths and overwrites `head_commit`, `ipfs_cid`, `updated_at`. -/
def push_update (s : State) (caller : Pubkey) (repo : Addr)
    (head_commit ipfs_cid : String) (now : Int) : Except VanishError TxOut :=
  match lookupA s.repos repo with
  | none => .error .notFound
  | some r =>
    if repo ≠ Addr.repoA caller r.name then .error .unauthorized
    else if r.bump ≠ canonicalBump repo then .error .unauthorized
    else if r.owner ≠ caller then .error .unauthorized
    else if strLen head_commit ≠ 40 then .error .invalidCommitHash
    else if strLen ipfs_cid > 64 then .error .invalidIpfsCid
    else
      let r2 : Repository := { r with head_commit := head_commit,
                                      ipfs_cid := ipfs_cid,
                                      updated_at := now }
      .ok
      { state := { s with repos := updateA s.repos repo r2 }
        event := some (.repoPushed r.owner r.name head_commit ipfs_cid now)
        charge := none
        refund := none }

/-- `add_collaborator` (lib.rs:72-94) with the `AddCollaborator` constraints
(lib.rs:190-213): repository re-derivation + `has_one = owner`, then `init`
of the collaborator account at `seeds = [b"collab", repository, grantee]`. -/
def add_collaborator (s : State) (caller : Pubkey) (repo : Addr)
    (collaborator : Pubkey) (can_push : Bool) (now : Int) :
    Except VanishError TxOut :=
  match lookupA s.repos repo with
  | none => .error .notFound
  | some r =>
    if repo ≠ Addr.repoA caller r.name then .error .unauthorized
    else if r.bump ≠ canonicalBump repo then .error .unauthorized
    else if r.owner ≠ caller then .error .unauthorized
    else
      let caddr := Addr.collabA repo collaborator
      match lookupA s.collabs caddr with
      | some _ => .error .alreadyInUse
      | none => .ok
        { state := { s with collabs :=
            (caddr,
              { repository := repo
                user := collaborator
                can_push := can_push
                added_at := now
                bump := canonicalBump caddr }) :: s.collabs }
          event := some (.collaboratorAdded repo collaborator can_push now)
          charge := some (caller, Collaborator.SPACE)
          refund := none }

/-- `remove_collaborator` (lib.rs:97-100, an empty body) with the
`RemoveCollaborator` constraints (lib.rs:215-234): repository re-derivation
+ `has_one = owner`; the collaborator account must exist, its address must
re-derive from the repository and its own stored `user` field with the
stored bump, and `close = owner` closes it, refunding its space to the
caller. -/
def remove_collaborator (s : State) (caller : Pubkey) (repo : Addr)
    (collab_account : Addr) : Except VanishError TxOut :=
  match lookupA s.repos repo with
  | none => .error .notFound
  | some r =>
    if repo ≠ Addr.repoA caller r.name then .error .unauthorized
    else if r.bump ≠ canonicalBump repo then .error .unauthorized
    else if r.owner ≠ caller then .error .unauthorized
    else
      match lookupA s.collabs collab_account with
      | none => .error .notFound
      | some c =>
        if collab_account ≠ Addr.collabA repo c.user then .error .unauthorized
        else if c.bump ≠ canonicalBump collab_account then
          .error .unauthorized
        else .ok
          { state := { s with collabs := eraseA s.collabs collab_account }
            event := none
            charge := none
            refund := some (caller, Collaborator.SPACE) }

/-- `star_repo` (lib.rs:103-122) with the `StarRepo` constraints
(lib.rs:236-254): the repository account must exist (no seeds or owner
check), the star account is `init`ed at
`seeds = [b"star", user, repository]`; the body bumps the star count with
`checked_add(1).unwrap_or(stars)` — clamp at `u64::MAX`, never an error. -/
def star_repo (s : State) (caller : Pubkey) (repo : Addr) (now : Int) :
    Except VanishError TxOut :=
  match lookupA s.repos repo with
  | none => .error .notFound
  | some r =>
    let saddr := Addr.starA caller repo
    match lookupA s.stars saddr with
    | some _ => .error .alreadyInUse
    | none =>
      let r2 : Repository :=
        { r with stars := if r.stars < u64Max then r.stars + 1 else r.stars }
      let st : Star := { user := caller, repository := repo,
                         starred_at := now, bump := canonicalBump saddr }
      .ok
      { state := { s with
          stars := (saddr, st) :: s.stars
          repos := updateA s.repos repo r2 }
        event := some (.repoStarred caller repo now)
        charge := some (caller, Star.SPACE)
        refund := none }

/-- `unstar_repo` (lib.rs:125-130) with the `UnstarRepo` constraints
(lib.rs:256-271): the repository must exist, the star account at
`seeds = [b"star", user, repository]` must exist with its stored bump, and
`close = user` closes it, refunding to the caller; the body decrements the
count with `saturating_sub(1)` — floor at 0 (which is exactly `Nat`
subtraction), never an error. -/
def unstar_repo (s : State) (caller : Pubkey) (repo : Addr) :
    Except VanishError TxOut :=
  match lookupA s.repos repo with
  | none => .error .notFound
  | some r =>
    let saddr := Addr.starA caller repo
    match lookupA s.stars saddr with
    | none => .error .notFound
    | some st =>
      if st.bump ≠ canonicalBump saddr then .error .unauthorized
      else
        let r2 : Repository := { r with stars := r.stars - 1 }
        .ok
        { state := { s with
            stars := eraseA s.stars saddr
            repos := updateA s.repos repo r2 }
          event := none
          charge := none
          refund := some (caller, Star.SPACE) }

/-- `transfer_ownership` (lib.rs:133-146) with the `TransferOwnership`
constraints (lib.rs:273-284): repository re-derivation + `has_one = owner`;
the body overwrites the `owner` field only. -/
def transfer_ownership (s : State) (caller : Pubkey) (repo : Addr)
    (new_owner : Pubkey) : Except VanishError TxOut :=
  match lookupA s.repos repo with
  | none => .error .notFound
  | some r =>
    if repo ≠ Addr.repoA caller r.name then .error .unauthorized
    else if r.bump ≠ canonicalBump repo then .error .unauthorized
    else if r.owner ≠ caller then .error .unauthorized
    else
      let r2 : Repository := { r with owner := new_owner }
      .ok
      { state := { s with repos := updateA s.repos repo r2 }
        event := some (.ownershipTransferred repo r.owner new_owner)
        charge := none
        refund := none }

/-- `delete_repo` (lib.rs:149-152, an empty body) with the `DeleteRepo`
constraints (lib.rs:286-299): repository re-derivation + `has_one = owner`;
`close = owner` closes the repository account, refunding to the caller.
Collaborator and Star records are NOT cascaded. -/
def delete_repo (s : State) (caller : Pubkey) (repo : Addr) :
    Except VanishError TxOut :=
  match lookupA s.repos repo with
  | none => .error .notFound
  | some r =>
    if repo ≠ Addr.repoA caller r.name then .error .unauthorized
    else if r.bump ≠ canonicalBump repo then .error .unauthorized
    else if r.owner ≠ caller then .error .unauthorized
    else .ok
      { state := { s with repos := eraseA s.repos repo }
        event := none
        charge := none
        refund := some (caller, Repository.SPACE) }

/-- One instruction invocation with all of its inputs (the caller is the
transaction's signer, `now` the ledger clock at execution). -/
inductive Op : Type where
  | createRepo (caller : Pubkey) (name description : String)
      (is_private : Bool) (now : Int)
  | pushUpdate (caller : Pubkey) (repo : Addr) (head_commit ipfs_cid : String)
      (now : Int)
  | addCollaborator (caller : Pubkey) (repo : Addr) (collaborator : Pubkey)
      (can_push : Bool) (now : Int)
  | removeCollaborator (caller : Pubkey) (repo collab_account : Addr)
  | starRepo (caller : Pubkey) (repo : Addr) (now : Int)
  | unstarRepo (caller : Pubkey) (repo : Addr)
  | transferOwnership (caller : Pubkey) (repo : Addr) (new_owner : Pubkey)
  | deleteRepo (caller : Pubkey) (repo : Addr)
deriving DecidableEq, Repr

/-- Dispatch one instruction. -/
def step (s : State) : Op → Except VanishError TxOut
  | .createRepo caller name description is_private now =>
      create_repo s caller name description is_private now
  | .pushUpdate caller repo head_commit ipfs_cid now =>
      push_update s caller repo head_commit ipfs_cid now
  | .addCollaborator caller repo collaborator can_push now =>
      add_collaborator s caller repo collaborator can_push now
  | .removeCollaborator caller repo collab_account =>
      remove_collaborator s caller repo collab_account
  | .starRepo caller repo now => star_repo s caller repo now
  | .unstarRepo caller repo => unstar_repo s caller repo
  | .transferOwnership caller repo new_owner =>
      transfer_ownership s caller repo new_owner
  | .deleteRepo caller repo => delete_repo s caller repo

/-- Run a sequence of instructions; the whole run fails if any one does
(each instruction itself is atomic). -/
def runOps : State → List Op → Except VanishError State
  | s, [] => .ok s
  | s, op :: rest =>
    match step s op with
    | .error e => .error e
    | .ok out => runOps out.state rest

/-- Number of Star records in a star store targeting a given repository
address. -/
def countStars (stars : List (Addr × Star)) (repo : Addr) : Nat :=
  stars.countP (fun p => decide (p.2.repository = repo))

/-- Number of currently-open Star records targeting a given repository
address. -/
def starCount (s : State) (repo : Addr) : Nat :=
  countStars s.stars repo

/-- The state after attempting one instruction: the new state on success,
the old state untouched on failure (atomicity of a failed transaction). -/
def stepState (s : State) (op : Op) : State :=
  match step s op with
  | .ok out => out.state
  | .error _ => s

theorem lookupA_cons {α : Type} (k : Addr) (v : α) (l : List (Addr × α))
    (a : Addr) :
    lookupA ((k, v) :: l) a = if k = a then some v else lookupA l a := rfl

theorem lookupA_updateA_self {α : Type} {l : List (Addr × α)} {a : Addr}
    {v : α} (w : α) (h : lookupA l a = some v) :
    lookupA (updateA l a w) a = some w := by
  induction l with
  | nil => simp [lookupA] at h
  | cons p rest ih =>
    obtain ⟨k, u⟩ := p
    by_cases hk : k = a
    · subst hk
      simp [updateA, lookupA]
    · simp [updateA, lookupA, hk] at h ⊢
      exact ih h

theorem lookupA_updateA_ne {α : Type} (l : List (Addr × α)) {a b : Addr}
    (w : α) (h : a ≠ b) :
    lookupA (updateA l a w) b = lookupA l b := by
  induction l with
  | nil => simp [updateA]
  | cons p rest ih =>
    obtain ⟨k, u⟩ := p
    by_cases hk : k = a
    · subst hk
      simp [updateA, lookupA, h]
    · simp [updateA, lookupA, hk, ih]

theorem lookupA_eraseA_self {α : Type} (l : List (Addr × α)) (a : Addr) :
    lookupA (eraseA l a) a = none := by
  induction l with
  | nil => simp [eraseA, lookupA]
  | cons p rest ih =>
    obtain ⟨k, u⟩ := p
    by_cases hk : k = a
    · simp [eraseA, hk, ih]
    · simp [eraseA, lookupA, hk, ih]

theorem lookupA_eraseA_ne {α : Type} (l : List (Addr × α)) {a b : Addr}
    (h : a ≠ b) : lookupA (eraseA l a) b = lookupA l b := by
  induction l with
  | nil => simp [eraseA]
  | cons p rest ih =>
    obtain ⟨k, u⟩ := p
    by_cases hk : k = a
    · subst hk
      simp [eraseA, lookupA, h, ih]
    · simp [eraseA, lookupA, hk, ih]

theorem eraseA_of_lookupA_none {α : Type} {l : List (Addr × α)} {a : Addr}
    (h : lookupA l a = none) : eraseA l a = l := by
  induction l with
  | nil => rfl
  | cons p rest ih =>
    obtain ⟨k, u⟩ := p
    by_cases hk : k = a
    · simp [lookupA, hk] at h
    · simp [lookupA, hk] at h
      simp [eraseA, hk, ih h]

/-- C3: for every caller and every valid name (non-empty, ≤64 bytes) and
description (≤256 bytes) with no repository already at the derived address,
`create_repo` succeeds and the record at `derive("repo", caller, name)` has
`owner = caller`, `stars = 0`, head commit and content-location empty, and
both timestamps equal to the current ledger time. -/
theorem create_repo_success (s : State) (caller : Pubkey)
    (name description : String) (is_private : Bool) (now : Int)
    (hn0 : strLen name ≠ 0) (hn64 : strLen name ≤ 64)
    (hd : strLen description ≤ 256)
    (hfree : lookupA s.repos (Addr.repoA caller name) = none) :
    ∃ out, create_repo s caller name description is_private now = .ok out ∧
      lookupA out.state.repos (Addr.repoA caller name) = some
        { owner := caller
          name := name
          description := description
          is_private := is_private
          created_at := now
          updated_at := now
          head_commit := ""
          ipfs_cid := ""
          stars := 0
          bump := canonicalBump (Addr.repoA caller name) } := by
  simp only [create_repo, hfree]
  rw [if_neg (by omega), if_neg (by omega), if_neg hn0]
  exact ⟨_, rfl, by simp [lookupA]⟩

/-- Witness for `create_repo_success` at a concrete input. -/
theorem create_repo_success_witness :
    ∃ out, create_repo initState 1 "demo" "x" false 7 = .ok out ∧
      lookupA out.state.repos (Addr.repoA 1 "demo") = some
        { owner := 1
          name := "demo"
          description := "x"
          is_private := false
          created_at := 7
          updated_at := 7
          head_commit := ""
          ipfs_cid := ""
          stars := 0
          bump := canonicalBump (Addr.repoA 1 "demo") } :=
  create_repo_success initState 1 "demo" "x" false 7 (by decide) (by decide)
    (by decide) (by decide)

/-- C4: whenever the name is empty or longer than 64 bytes, or the
description longer than 256 bytes, `create_repo` fails and creates no
record.  The failure is `NameEmpty`, `NameTooLong` or `DescriptionTooLong`
whenever the derived address is free (if the address is occupied, the
`init` constraint rejects it first with the store-level "already in use"),
and each single violation yields its respective error. -/
theorem create_repo_invalid (s : State) (caller : Pubkey)
    (name description : String) (is_private : Bool) (now : Int)
    (hbad : strLen name = 0 ∨ strLen name > 64 ∨ strLen description > 256) :
    (∃ e, create_repo s caller name description is_private now = .error e) ∧
    stepState s (.createRepo caller name description is_private now) = s ∧
    (lookupA s.repos (Addr.repoA caller name) = none →
      ((create_repo s caller name description is_private now =
          .error .nameEmpty ∨
        create_repo s caller name description is_private now =
          .error .nameTooLong ∨
        create_repo s caller name description is_private now =
          .error .descriptionTooLong) ∧
       (strLen name > 64 →
          create_repo s caller name description is_private now =
            .error .nameTooLong) ∧
       (strLen name ≤ 64 → strLen description > 256 →
          create_repo s caller name description is_private now =
            .error .descriptionTooLong) ∧
       (strLen name = 0 → strLen description ≤ 256 →
          create_repo s caller name description is_private now =
            .error .nameEmpty))) := by
  have herr : ∃ e,
      create_repo s caller name description is_private now = .error e := by
    simp only [create_repo]
    cases hfree : lookupA s.repos (Addr.repoA caller name) with
    | some r => exact ⟨.alreadyInUse, rfl⟩
    | none =>
      by_cases h64 : strLen name > 64
      · exact ⟨.nameTooLong, by rw [if_pos h64]⟩
      · by_cases h256 : strLen description > 256
        · exact ⟨.descriptionTooLong, by rw [if_neg h64, if_pos h256]⟩
        · have h0 : strLen name = 0 := by omega
          exact ⟨.nameEmpty, by rw [if_neg h64, if_neg h256, if_pos h0]⟩
  refine ⟨herr, ?_, ?_⟩
  · obtain ⟨e, he⟩ := herr
    simp [stepState, step, he]
  · intro hfree
    simp only [create_repo, hfree]
    by_cases h64 : strLen name > 64
    · rw [if_pos h64]
      exact ⟨Or.inr (Or.inl rfl), fun _ => rfl, fun h _ => by omega,
        fun h _ => by omega⟩
    · rw [if_neg h64]
      by_cases h256 : strLen description > 256
      · rw [if_pos h256]
        exact ⟨Or.inr (Or.inr rfl), fun h => by omega, fun _ _ => rfl,
          fun _ h => by omega⟩
      · have h0 : strLen name = 0 := by omega
        rw [if_neg h256, if_pos h0]
        exact ⟨Or.inl rfl, fun h => by omega, fun _ h => by omega,
          fun _ _ => rfl⟩

/-- Witness for `create_repo_invalid` at a concrete input (65-byte name). -/
theorem create_repo_invalid_witness :
    (∃ e, create_repo initState 2
        "aaaaaaaaaaaaaaaaaaaaaaaaaaaaaaaaaaaaaaaaaaaaaaaaaaaaaaaaaaaaaaaaa"
        "d" true 3 = .error e) ∧
    stepState initState (.createRepo 2
        "aaaaaaaaaaaaaaaaaaaaaaaaaaaaaaaaaaaaaaaaaaaaaaaaaaaaaaaaaaaaaaaaa"
        "d" true 3) = initState ∧
    (lookupA initState.repos (Addr.repoA 2
        "aaaaaaaaaaaaaaaaaaaaaaaaaaaaaaaaaaaaaaaaaaaaaaaaaaaaaaaaaaaaaaaaa")
        = none →
      ((create_repo initState 2
          "aaaaaaaaaaaaaaaaaaaaaaaaaaaaaaaaaaaaaaaaaaaaaaaaaaaaaaaaaaaaaaaaa"
          "d" true 3 = .error .nameEmpty ∨
        create_repo initState 2
          "aaaaaaaaaaaaaaaaaaaaaaaaaaaaaaaaaaaaaaaaaaaaaaaaaaaaaaaaaaaaaaaaa"
          "d" true 3 = .error .nameTooLong ∨
        create_repo initState 2
          "aaaaaaaaaaaaaaaaaaaaaaaaaaaaaaaaaaaaaaaaaaaaaaaaaaaaaaaaaaaaaaaaa"
          "d" true 3 = .error .descriptionTooLong) ∧
       (strLen
          "aaaaaaaaaaaaaaaaaaaaaaaaaaaaaaaaaaaaaaaaaaaaaaaaaaaaaaaaaaaaaaaaa"
          > 64 →
        create_repo initState 2
          "aaaaaaaaaaaaaaaaaaaaaaaaaaaaaaaaaaaaaaaaaaaaaaaaaaaaaaaaaaaaaaaaa"
          "d" true 3 = .error .nameTooLong) ∧
       (strLen
          "aaaaaaaaaaaaaaaaaaaaaaaaaaaaaaaaaaaaaaaaaaaaaaaaaaaaaaaaaaaaaaaaa"
          ≤ 64 → strLen "d" > 256 →
        create_repo initState 2
          "aaaaaaaaaaaaaaaaaaaaaaaaaaaaaaaaaaaaaaaaaaaaaaaaaaaaaaaaaaaaaaaaa"
          "d" true 3 = .error .descriptionTooLong) ∧
       (strLen
          "aaaaaaaaaaaaaaaaaaaaaaaaaaaaaaaaaaaaaaaaaaaaaaaaaaaaaaaaaaaaaaaaa"
          = 0 → strLen "d" ≤ 256 →
        create_repo initState 2
          "aaaaaaaaaaaaaaaaaaaaaaaaaaaaaaaaaaaaaaaaaaaaaaaaaaaaaaaaaaaaaaaaa"
          "d" true 3 = .error .nameEmpty))) :=
  create_repo_invalid initState 2
    "aaaaaaaaaaaaaaaaaaaaaaaaaaaaaaaaaaaaaaaaaaaaaaaaaaaaaaaaaaaaaaaaa"
    "d" true 3 (by decide)

/-- C5: `push_update` with a head commit whose length is not 40, or with an
IPFS CID longer than 64, fails and (failed transactions touching no state)
leaves every field of the repository unchanged; for the authorized caller
the error is `InvalidCommitHash` resp. `InvalidIpfsCid`.  On success, only
`head_commit`, the content-location and `updated_at` are overwritten: every
other field of the repository, every other record and both other record
stores are untouched. -/
theorem push_update_validation_and_frame (s : State) (caller : Pubkey)
    (a : Addr) (head_commit ipfs_cid : String) (now : Int) (r : Repository)
    (hr : lookupA s.repos a = some r) :
    (strLen head_commit ≠ 40 →
      (∃ e, push_update s caller a head_commit ipfs_cid now = .error e) ∧
      stepState s (.pushUpdate caller a head_commit ipfs_cid now) = s ∧
      (a = Addr.repoA caller r.name → r.bump = canonicalBump a →
        r.owner = caller →
        push_update s caller a head_commit ipfs_cid now =
          .error .invalidCommitHash)) ∧
    (strLen head_commit = 40 → strLen ipfs_cid > 64 →
      (∃ e, push_update s caller a head_commit ipfs_cid now = .error e) ∧
      stepState s (.pushUpdate caller a head_commit ipfs_cid now) = s ∧
      (a = Addr.repoA caller r.name → r.bump = canonicalBump a →
        r.owner = caller →
        push_update s caller a head_commit ipfs_cid now =
          .error .invalidIpfsCid)) ∧
    (∀ out, push_update s caller a head_commit ipfs_cid now = .ok out →
      lookupA out.state.repos a = some
        { r with head_commit := head_commit, ipfs_cid := ipfs_cid,
                 updated_at := now } ∧
      (∀ b, b ≠ a → lookupA out.state.repos b = lookupA s.repos b) ∧
      out.state.collabs = s.collabs ∧ out.state.stars = s.stars) := by
  refine ⟨?_, ?_, ?_⟩
  · intro hc
    have herr : ∃ e,
        push_update s caller a head_commit ipfs_cid now = .error e := by
      simp only [push_update, hr]
      by_cases h1 : a = Addr.repoA caller r.name
      · by_cases h2 : r.bump = canonicalBump a
        · by_cases h3 : r.owner = caller
          · refine ⟨.invalidCommitHash, ?_⟩
            rw [if_neg (by simp [h1]), if_neg (by simp [← h1, h2]),
              if_neg (by simp [h3]), if_pos hc]
          · refine ⟨.unauthorized, ?_⟩
            rw [if_neg (by simp [h1]), if_neg (by simp [← h1, h2]),
              if_pos (by simp [h3])]
        · refine ⟨.unauthorized, ?_⟩
          rw [if_neg (by simp [h1]), if_pos (by simp [h2])]
      · exact ⟨.unauthorized, by rw [if_pos (by simp [h1])]⟩
    obtain ⟨e, he⟩ := herr
    refine ⟨⟨e, he⟩, by simp [stepState, step, he], ?_⟩
    intro h1 h2 h3
    simp only [push_update, hr]
    rw [if_neg (by simp [h1]), if_neg (by simp [h2]), if_neg (by simp [h3]),
      if_pos hc]
  · intro hc hcid
    have herr : ∃ e,
        push_update s caller a head_commit ipfs_cid now = .error e := by
      simp only [push_update, hr]
      by_cases h1 : a = Addr.repoA caller r.name
      · by_cases h2 : r.bump = canonicalBump a
        · by_cases h3 : r.owner = caller
          · refine ⟨.invalidIpfsCid, ?_⟩
            rw [if_neg (by simp [h1]), if_neg (by simp [← h1, h2]),
              if_neg (by simp [h3]), if_neg (by simp [hc]), if_pos hcid]
          · refine ⟨.unauthorized, ?_⟩
            rw [if_neg (by simp [h1]), if_neg (by simp [← h1, h2]),
              if_pos (by simp [h3])]
        · refine ⟨.unauthorized, ?_⟩
          rw [if_neg (by simp [h1]), if_pos (by simp [h2])]
      · exact ⟨.unauthorized, by rw [if_pos (by simp [h1])]⟩
    obtain ⟨e, he⟩ := herr
    refine ⟨⟨e, he⟩, by simp [stepState, step, he], ?_⟩
    intro h1 h2 h3
    simp only [push_update, hr]
    rw [if_neg (by simp [h1]), if_neg (by simp [h2]), if_neg (by simp [h3]),
      if_neg (by simp [hc]), if_pos hcid]
  · intro out hok
    simp only [push_update, hr] at hok
    by_cases h1 : a = Addr.repoA caller r.name
    · by_cases h2 : r.bump = canonicalBump a
      · by_cases h3 : r.owner = caller
        · by_cases h4 : strLen head_commit = 40
          · by_cases h5 : strLen ipfs_cid ≤ 64
            · rw [if_neg (by simp [h1]), if_neg (by simp [h2]),
                if_neg (by simp [h3]), if_neg (by simp [h4]),
                if_neg (by omega)] at hok
              cases hok
              refine ⟨lookupA_updateA_self _ hr, ?_, rfl, rfl⟩
              intro b hb
              exact lookupA_updateA_ne s.repos _ (Ne.symm hb)
            · rw [if_neg (by simp [h1]), if_neg (by simp [h2]),
                if_neg (by simp [h3]), if_neg (by simp [h4]),
                if_pos (by omega)] at hok
              cases hok
          · rw [if_neg (by simp [h1]), if_neg (by simp [h2]),
              if_neg (by simp [h3]), if_pos (by simp [h4])] at hok
            cases hok
        · rw [if_neg (by simp [h1]), if_neg (by simp [h2]),
            if_pos (by simp [h3])] at hok
          cases hok
      · rw [if_neg (by simp [h1]), if_pos (by simp [h2])] at hok
        cases hok
    · rw [if_pos (by simp [h1])] at hok
      cases hok

/-- C7: the star-count increment of `star_repo` clamps at `u64::MAX` rather
than wrapping or erroring, and the decrement of `unstar_repo` floors at 0
and never errors; in particular unstarring a repository whose stars field is
0 (with the caller's Star record open) succeeds and leaves `stars = 0`. -/
theorem star_count_saturates (s : State) (caller : Pubkey) (a : Addr)
    (now : Int) (r : Repository) (hr : lookupA s.repos a = some r)
    (hle : r.stars ≤ u64Max) :
    (lookupA s.stars (Addr.starA caller a) = none →
      ∃ out, star_repo s caller a now = .ok out ∧
        ∃ r2, lookupA out.state.repos a = some r2 ∧
          r2.stars = min (r.stars + 1) u64Max ∧
          (r.stars = u64Max → r2.stars = u64Max)) ∧
    (∀ st, lookupA s.stars (Addr.starA caller a) = some st →
      st.bump = canonicalBump (Addr.starA caller a) →
      ∃ out, unstar_repo s caller a = .ok out ∧
        ∃ r2, lookupA out.state.repos a = some r2 ∧
          r2.stars = r.stars - 1 ∧
          (r.stars = 0 → r2.stars = 0)) := by
  constructor
  · intro hfree
    simp only [star_repo, hr, hfree]
    refine ⟨_, rfl, _, lookupA_updateA_self _ hr, ?_, ?_⟩
    · by_cases h : r.stars < u64Max
      · rw [if_pos h]
        dsimp only
        omega
      · rw [if_neg h]
        dsimp only
        omega
    · intro h0
      rw [if_neg (by omega)]
      dsimp only
      exact h0
  · intro st hst hbump
    simp only [unstar_repo, hst, hr]
    rw [if_neg (by simp [hbump])]
    refine ⟨_, rfl, _, lookupA_updateA_self _ hr, rfl, ?_⟩
    intro h0
    dsimp only
    omega

/-- Witness for `star_count_saturates`: a repository at the `u64::MAX` star
count keeps it on star, and one at 0 stays at 0 on unstar. -/
theorem star_count_saturates_witness :
    (lookupA (State.mk
        [(Addr.repoA 1 "n",
          { owner := 1, name := "n", description := "", is_private := false,
            created_at := 0, updated_at := 0, head_commit := "",
            ipfs_cid := "", stars := u64Max, bump := 255 })] [] []).stars
        (Addr.starA 2 (Addr.repoA 1 "n")) = none →
      ∃ out, star_repo (State.mk
        [(Addr.repoA 1 "n",
          { owner := 1, name := "n", description := "", is_private := false,
            created_at := 0, updated_at := 0, head_commit := "",
            ipfs_cid := "", stars := u64Max, bump := 255 })] [] []) 2
            (Addr.repoA 1 "n") 9 = .ok out ∧
        ∃ r2, lookupA out.state.repos (Addr.repoA 1 "n") = some r2 ∧
          r2.stars = min (u64Max + 1) u64Max ∧
          (u64Max = u64Max → r2.stars = u64Max)) ∧
    (∀ st, lookupA (State.mk
        [(Addr.repoA 1 "n",
          { owner := 1, name := "n", description := "", is_private := false,
            created_at := 0, updated_at := 0, head_commit := "",
            ipfs_cid := "", stars := u64Max, bump := 255 })] [] []).stars
        (Addr.starA 2 (Addr.repoA 1 "n")) = some st →
      st.bump = canonicalBump (Addr.starA 2 (Addr.repoA 1 "n")) →
      ∃ out, unstar_repo (State.mk
        [(Addr.repoA 1 "n",
          { owner := 1, name := "n", description := "", is_private := false,
            created_at := 0, updated_at := 0, head_commit := "",
            ipfs_cid := "", stars := u64Max, bump := 255 })] [] []) 2
            (Addr.repoA 1 "n") = .ok out ∧
        ∃ r2, lookupA out.state.repos (Addr.repoA 1 "n") = some r2 ∧
          r2.stars = u64Max - 1 ∧
          (u64Max = 0 → r2.stars = 0)) :=
  star_count_saturates (State.mk
      [(Addr.repoA 1 "n",
        { owner := 1, name := "n", description := "", is_private := false,
          created_at := 0, updated_at := 0, head_commit := "",
          ipfs_cid := "", stars := u64Max, bump := 255 })] [] []) 2
    (Addr.repoA 1 "n") 9
    { owner := 1, name := "n", description := "", is_private := false,
      created_at := 0, updated_at := 0, head_commit := "",
      ipfs_cid := "", stars := u64Max, bump := 255 } (by rfl)
    (Nat.le_refl u64Max)

/-- C8: a successful `transfer_ownership` updates only the `owner` field:
the record stays at the same derived address, and its name, disambiguation
nonce and every other field are unchanged, as are all other records. -/
theorem transfer_ownership_frame (s : State) (caller : Pubkey) (a : Addr)
    (new_owner : Pubkey) (r : Repository) (out : TxOut)
    (hr : lookupA s.repos a = some r)
    (hok : transfer_ownership s caller a new_owner = .ok out) :
    lookupA out.state.repos a = some { r with owner := new_owner } ∧
    ({ r with owner := new_owner } : Repository).name = r.name ∧
    ({ r with owner := new_owner } : Repository).bump = r.bump ∧
    (∀ b, b ≠ a → lookupA out.state.repos b = lookupA s.repos b) ∧
    out.state.collabs = s.collabs ∧ out.state.stars = s.stars := by
  simp only [transfer_ownership, hr] at hok
  by_cases h1 : a = Addr.repoA caller r.name
  · by_cases h2 : r.bump = canonicalBump a
    · by_cases h3 : r.owner = caller
      · rw [if_neg (by simp [h1]), if_neg (by simp [h2]),
          if_neg (by simp [h3])] at hok
        cases hok
        refine ⟨lookupA_updateA_self _ hr, rfl, rfl, ?_, rfl, rfl⟩
        intro b hb
        exact lookupA_updateA_ne s.repos _ (Ne.symm hb)
      · rw [if_neg (by simp [h1]), if_neg (by simp [h2]),
          if_pos (by simp [h3])] at hok
        cases hok
    · rw [if_neg (by simp [h1]), if_pos (by simp [h2])] at hok
      cases hok
  · rw [if_pos (by simp [h1])] at hok
    cases hok

/-- Witness for `transfer_ownership_frame` at a concrete input. -/
theorem transfer_ownership_frame_witness :
    ∃ out, transfer_ownership (State.mk
      [(Addr.repoA 1 "n",
        { owner := 1, name := "n", description := "d", is_private := true,
          created_at := 4, updated_at := 5, head_commit := "",
          ipfs_cid := "", stars := 3, bump := 255 })] [] []) 1
      (Addr.repoA 1 "n") 2 = .ok out ∧
    (lookupA out.state.repos (Addr.repoA 1 "n") = some
      { owner := 2, name := "n", description := "d", is_private := true,
        created_at := 4, updated_at := 5, head_commit := "",
        ipfs_cid := "", stars := 3, bump := 255 } ∧
     (∀ b, b ≠ Addr.repoA 1 "n" →
        lookupA out.state.repos b = lookupA (State.mk
          [(Addr.repoA 1 "n",
            { owner := 1, name := "n", description := "d",
              is_private := true, created_at := 4, updated_at := 5,
              head_commit := "", ipfs_cid := "", stars := 3,
              bump := 255 })] [] []).repos b) ∧
     out.state.collabs = [] ∧ out.state.stars = []) := by
  refine ⟨_, rfl, ?_⟩
  have h := transfer_ownership_frame (State.mk
      [(Addr.repoA 1 "n",
        { owner := 1, name := "n", description := "d", is_private := true,
          created_at := 4, updated_at := 5, head_commit := "",
          ipfs_cid := "", stars := 3, bump := 255 })] [] []) 1
      (Addr.repoA 1 "n") 2
      { owner := 1, name := "n", description := "d", is_private := true,
        created_at := 4, updated_at := 5, head_commit := "",
        ipfs_cid := "", stars := 3, bump := 255 } _ (by rfl) rfl
  exact ⟨h.1, h.2.2.2.1, h.2.2.2.2⟩

/-- A sample repository record owned by key 1, used by concrete witnesses. -/
def sampleRepo : Repository :=
  { owner := 1
    name := "n"
    description := "d"
    is_private := false
    created_at := 0
    updated_at := 0
    head_commit := ""
    ipfs_cid := ""
    stars := 0
    bump := 255 }

/-- A sample one-repository ledger, used by concrete witnesses. -/
def sampleState : State := ⟨[(Addr.repoA 1 "n", sampleRepo)], [], []⟩

/-- Witness for `push_update_validation_and_frame`: a 3-byte commit hash by
the owner is rejected as `InvalidCommitHash` and changes nothing. -/
theorem push_update_validation_witness :
    push_update sampleState 1 (Addr.repoA 1 "n") "xyz" "c" 9 =
      .error .invalidCommitHash ∧
    stepState sampleState (.pushUpdate 1 (Addr.repoA 1 "n") "xyz" "c" 9) =
      sampleState := by
  have h := push_update_validation_and_frame sampleState 1 (Addr.repoA 1 "n")
    "xyz" "c" 9 sampleRepo (by rfl)
  have h1 := h.1 (by decide)
  exact ⟨h1.2.2 rfl rfl rfl, h1.2.1⟩

/-- C2: when the caller is not the repository's recorded owner, each of
`push_update`, `add_collaborator`, `remove_collaborator`,
`transfer_ownership` and `delete_repo` fails with `Unauthorized` (the
seeds-re-derivation / `has_one = owner` constraint rejects the transaction)
and leaves all records unchanged. -/
theorem owner_only_operations (s : State) (caller : Pubkey) (a : Addr)
    (r : Repository) (head_commit ipfs_cid : String) (now : Int)
    (grantee new_owner : Pubkey) (can_push : Bool) (ca : Addr)
    (hr : lookupA s.repos a = some r) (hne : r.owner ≠ caller) :
    (push_update s caller a head_commit ipfs_cid now =
        .error .unauthorized ∧
      stepState s (.pushUpdate caller a head_commit ipfs_cid now) = s) ∧
    (add_collaborator s caller a grantee can_push now =
        .error .unauthorized ∧
      stepState s (.addCollaborator caller a grantee can_push now) = s) ∧
    (remove_collaborator s caller a ca = .error .unauthorized ∧
      stepState s (.removeCollaborator caller a ca) = s) ∧
    (transfer_ownership s caller a new_owner = .error .unauthorized ∧
      stepState s (.transferOwnership caller a new_owner) = s) ∧
    (delete_repo s caller a = .error .unauthorized ∧
      stepState s (.deleteRepo caller a) = s) := by
  have hpush : push_update s caller a head_commit ipfs_cid now =
      .error .unauthorized := by
    simp only [push_update, hr]
    by_cases h1 : a = Addr.repoA caller r.name
    · rw [if_neg (by simp [h1])]
      by_cases h2 : r.bump = canonicalBump a
      · rw [if_neg (by simp [h2]), if_pos hne]
      · rw [if_pos h2]
    · rw [if_pos h1]
  have hadd : add_collaborator s caller a grantee can_push now =
      .error .unauthorized := by
    simp only [add_collaborator, hr]
    by_cases h1 : a = Addr.repoA caller r.name
    · rw [if_neg (by simp [h1])]
      by_cases h2 : r.bump = canonicalBump a
      · rw [if_neg (by simp [h2]), if_pos hne]
      · rw [if_pos h2]
    · rw [if_pos h1]
  have hrem : remove_collaborator s caller a ca = .error .unauthorized := by
    simp only [remove_collaborator, hr]
    by_cases h1 : a = Addr.repoA caller r.name
    · rw [if_neg (by simp [h1])]
      by_cases h2 : r.bump = canonicalBump a
      · rw [if_neg (by simp [h2]), if_pos hne]
      · rw [if_pos h2]
    · rw [if_pos h1]
  have htr : transfer_ownership s caller a new_owner =
      .error .unauthorized := by
    simp only [transfer_ownership, hr]
    by_cases h1 : a = Addr.repoA caller r.name
    · rw [if_neg (by simp [h1])]
      by_cases h2 : r.bump = canonicalBump a
      · rw [if_neg (by simp [h2]), if_pos hne]
      · rw [if_pos h2]
    · rw [if_pos h1]
  have hdel : delete_repo s caller a = .error .unauthorized := by
    simp only [delete_repo, hr]
    by_cases h1 : a = Addr.repoA caller r.name
    · rw [if_neg (by simp [h1])]
      by_cases h2 : r.bump = canonicalBump a
      · rw [if_neg (by simp [h2]), if_pos hne]
      · rw [if_pos h2]
    · rw [if_pos h1]
  exact ⟨⟨hpush, by simp [stepState, step, hpush]⟩,
    ⟨hadd, by simp [stepState, step, hadd]⟩,
    ⟨hrem, by simp [stepState, step, hrem]⟩,
    ⟨htr, by simp [stepState, step, htr]⟩,
    ⟨hdel, by simp [stepState, step, hdel]⟩⟩

/-- Witness for `owner_only_operations`: caller 2 against the repository
owned by key 1. -/
theorem owner_only_operations_witness :
    (push_update sampleState 2 (Addr.repoA 1 "n")
        "aaaaaaaaaaaaaaaaaaaaaaaaaaaaaaaaaaaaaaaa" "c" 9 =
        .error .unauthorized ∧
      stepState sampleState (.pushUpdate 2 (Addr.repoA 1 "n")
        "aaaaaaaaaaaaaaaaaaaaaaaaaaaaaaaaaaaaaaaa" "c" 9) = sampleState) ∧
    (add_collaborator sampleState 2 (Addr.repoA 1 "n") 3 true 9 =
        .error .unauthorized ∧
      stepState sampleState (.addCollaborator 2 (Addr.repoA 1 "n") 3 true 9)
        = sampleState) ∧
    (remove_collaborator sampleState 2 (Addr.repoA 1 "n")
        (Addr.collabA (Addr.repoA 1 "n") 3) = .error .unauthorized ∧
      stepState sampleState (.removeCollaborator 2 (Addr.repoA 1 "n")
        (Addr.collabA (Addr.repoA 1 "n") 3)) = sampleState) ∧
    (transfer_ownership sampleState 2 (Addr.repoA 1 "n") 2 =
        .error .unauthorized ∧
      stepState sampleState (.transferOwnership 2 (Addr.repoA 1 "n") 2) =
        sampleState) ∧
    (delete_repo sampleState 2 (Addr.repoA 1 "n") = .error .unauthorized ∧
      stepState sampleState (.deleteRepo 2 (Addr.repoA 1 "n")) =
        sampleState) :=
  owner_only_operations sampleState 2 (Addr.repoA 1 "n") sampleRepo
    "aaaaaaaaaaaaaaaaaaaaaaaaaaaaaaaaaaaaaaaa" "c" 9 3 2 true
    (Addr.collabA (Addr.repoA 1 "n") 3) (by rfl) (by decide)

/-- C9: `add_collaborator` followed by `remove_collaborator` for the same
(repository, grantee) pair restores the ledger exactly (the repository
record is never touched by either, and the Collaborator record is closed),
with the grant's reserved space charged to and refunded to the owner. -/
theorem add_remove_collaborator_roundtrip (s : State)
    (caller grantee : Pubkey) (a : Addr) (r : Repository) (can_push : Bool)
    (now : Int) (hr : lookupA s.repos a = some r)
    (h1 : a = Addr.repoA caller r.name) (h2 : r.bump = canonicalBump a)
    (h3 : r.owner = caller)
    (hfree : lookupA s.collabs (Addr.collabA a grantee) = none) :
    ∃ out1 out2,
      add_collaborator s caller a grantee can_push now = .ok out1 ∧
      remove_collaborator out1.state caller a (Addr.collabA a grantee) =
        .ok out2 ∧
      out2.state = s ∧
      out1.charge = some (caller, Collaborator.SPACE) ∧
      out2.refund = some (caller, Collaborator.SPACE) := by
  have he : eraseA ((Addr.collabA a grantee,
      (⟨a, grantee, can_push, now,
        canonicalBump (Addr.collabA a grantee)⟩ : Collaborator))
        :: s.collabs) (Addr.collabA a grantee) = s.collabs := by
    simp [eraseA, eraseA_of_lookupA_none hfree]
  have hadd : add_collaborator s caller a grantee can_push now = .ok
      ⟨⟨s.repos,
        (Addr.collabA a grantee,
          ⟨a, grantee, can_push, now,
            canonicalBump (Addr.collabA a grantee)⟩) :: s.collabs,
        s.stars⟩,
        some (.collaboratorAdded a grantee can_push now),
        some (caller, Collaborator.SPACE), none⟩ := by
    simp only [add_collaborator, hr]
    rw [if_neg (by simp [h1]), if_neg (by simp [h2]),
      if_neg (by simp [h3])]
    simp only [hfree]
  have hrem : remove_collaborator
      (⟨s.repos,
        (Addr.collabA a grantee,
          ⟨a, grantee, can_push, now,
            canonicalBump (Addr.collabA a grantee)⟩) :: s.collabs,
        s.stars⟩ : State) caller a (Addr.collabA a grantee) = .ok
      ⟨⟨s.repos, s.collabs, s.stars⟩, none, none,
        some (caller, Collaborator.SPACE)⟩ := by
    simp only [remove_collaborator, hr]
    rw [if_neg (by simp [h1]), if_neg (by simp [h2]),
      if_neg (by simp [h3])]
    rw [show lookupA ((Addr.collabA a grantee,
        (⟨a, grantee, can_push, now,
          canonicalBump (Addr.collabA a grantee)⟩ : Collaborator))
          :: s.collabs) (Addr.collabA a grantee) = some
        (⟨a, grantee, can_push, now,
          canonicalBump (Addr.collabA a grantee)⟩ : Collaborator) by
      simp [lookupA]]
    dsimp only
    rw [if_neg (by simp), if_neg (by simp)]
    rw [he]
  exact ⟨_, _, hadd, hrem, rfl, rfl, rfl⟩

/-- Witness for `add_remove_collaborator_roundtrip` at a concrete input. -/
theorem add_remove_collaborator_roundtrip_witness :
    ∃ out1 out2,
      add_collaborator sampleState 1 (Addr.repoA 1 "n") 3 true 9 =
        .ok out1 ∧
      remove_collaborator out1.state 1 (Addr.repoA 1 "n")
        (Addr.collabA (Addr.repoA 1 "n") 3) = .ok out2 ∧
      out2.state = sampleState ∧
      out1.charge = some (1, Collaborator.SPACE) ∧
      out2.refund = some (1, Collaborator.SPACE) :=
  add_remove_collaborator_roundtrip sampleState 1 3 (Addr.repoA 1 "n")
    sampleRepo true 9 (by rfl) (by rfl) (by rfl) (by rfl) (by rfl)

theorem lookupA_updateA_some {α : Type} {l : List (Addr × α)} {k b : Addr}
    {w v : α} (h : lookupA (updateA l k w) b = some v) :
    v = w ∨ lookupA l b = some v := by
  induction l with
  | nil => simp [updateA, lookupA] at h
  | cons p rest ih =>
    obtain ⟨k1, u⟩ := p
    by_cases hk : k1 = k
    · subst hk
      simp only [updateA, if_pos rfl] at h
      by_cases hb : k1 = b
      · simp [lookupA, hb] at h ⊢
        exact Or.inl h.symm
      · simp [lookupA, hb] at h ⊢
        exact Or.inr h
    · simp only [updateA, if_neg hk] at h
      by_cases hb : k1 = b
      · simp [lookupA, hb] at h ⊢
        exact Or.inr h
      · simp [lookupA, hb] at h ⊢
        exact ih h

theorem lookupA_eraseA_some {α : Type} {l : List (Addr × α)} {k b : Addr}
    {v : α} (h : lookupA (eraseA l k) b = some v) :
    lookupA l b = some v := by
  by_cases hbk : k = b
  · subst hbk
    rw [lookupA_eraseA_self] at h
    cases h
  · rwa [lookupA_eraseA_ne l hbk] at h

theorem lookupA_eq_none_of_not_mem {α : Type} {l : List (Addr × α)}
    {k : Addr} (h : k ∉ l.map Prod.fst) : lookupA l k = none := by
  induction l with
  | nil => rfl
  | cons p rest ih =>
    obtain ⟨k1, u⟩ := p
    simp only [List.map_cons, List.mem_cons] at h
    push_neg at h
    simp [lookupA, Ne.symm h.1, ih h.2]

theorem not_mem_of_lookupA_eq_none {α : Type} {l : List (Addr × α)}
    {k : Addr} (h : lookupA l k = none) : k ∉ l.map Prod.fst := by
  induction l with
  | nil => simp
  | cons p rest ih =>
    obtain ⟨k1, u⟩ := p
    by_cases hk : k1 = k
    · simp [lookupA, hk] at h
    · simp only [lookupA, if_neg hk] at h
      simp [Ne.symm hk, ih h]

theorem lookupA_of_mem_nodup {α : Type} {l : List (Addr × α)} {k : Addr}
    {v : α} (hmem : (k, v) ∈ l) (hnd : (l.map Prod.fst).Nodup) :
    lookupA l k = some v := by
  induction l with
  | nil => cases hmem
  | cons p rest ih =>
    obtain ⟨k1, u⟩ := p
    simp only [List.map_cons, List.nodup_cons] at hnd
    rcases List.mem_cons.mp hmem with h | h
    · cases h
      simp [lookupA]
    · have hk : k1 ≠ k := by
        intro he
        subst he
        exact hnd.1 (List.mem_map.mpr ⟨(k1, v), h, rfl⟩)
      simp [lookupA, hk, ih h hnd.2]

theorem eraseA_map_fst_sublist {α : Type} (l : List (Addr × α)) (k : Addr) :
    ((eraseA l k).map Prod.fst).Sublist (l.map Prod.fst) := by
  induction l with
  | nil => simp [eraseA]
  | cons p rest ih =>
    obtain ⟨k1, u⟩ := p
    by_cases hk : k1 = k
    · simp only [eraseA, if_pos hk, List.map_cons]
      exact ih.cons k1
    · simp only [eraseA, if_neg hk, List.map_cons]
      exact ih.cons₂ k1

theorem countP_eraseA {α : Type} {l : List (Addr × α)} {k : Addr} {v : α}
    (p : Addr × α → Bool) (hnd : (l.map Prod.fst).Nodup)
    (h : lookupA l k = some v) :
    (eraseA l k).countP p + (if p (k, v) then 1 else 0) = l.countP p := by
  induction l with
  | nil => simp [lookupA] at h
  | cons q rest ih =>
    obtain ⟨k1, u⟩ := q
    simp only [List.map_cons, List.nodup_cons] at hnd
    by_cases hk : k1 = k
    · subst hk
      rw [lookupA_cons, if_pos rfl] at h
      injection h with h
      subst h
      have hrest : lookupA rest k1 = none :=
        lookupA_eq_none_of_not_mem hnd.1
      simp only [eraseA, if_pos rfl, eraseA_of_lookupA_none hrest,
        eq_self_iff_true, ite_true, List.countP_cons]
    · simp only [lookupA, if_neg hk] at h
      simp only [eraseA, if_neg hk, List.countP_cons]
      have hih := ih hnd.2 h
      omega

/-- Success inversion for `create_repo`. -/
theorem create_repo_ok_inv {s : State} {caller : Pubkey}
    {name description : String} {is_private : Bool} {now : Int} {out : TxOut}
    (hok : create_repo s caller name description is_private now = .ok out) :
    lookupA s.repos (Addr.repoA caller name) = none ∧
    out = ⟨⟨(Addr.repoA caller name,
        ⟨caller, name, description, is_private, now, now, "", "", 0,
          canonicalBump (Addr.repoA caller name)⟩) :: s.repos,
        s.collabs, s.stars⟩,
      some (.repoCreated caller name is_private now),
      some (caller, Repository.SPACE), none⟩ := by
  simp only [create_repo] at hok
  cases hl : lookupA s.repos (Addr.repoA caller name) with
  | some r =>
    rw [hl] at hok
    cases hok
  | none =>
    rw [hl] at hok
    dsimp only at hok
    split at hok
    · cases hok
    · split at hok
      · cases hok
      · split at hok
        · cases hok
        · cases hok
          exact ⟨rfl, rfl⟩

/-- Success inversion for `push_update`. -/
theorem push_update_ok_inv {s : State} {caller : Pubkey} {repo : Addr}
    {head_commit ipfs_cid : String} {now : Int} {out : TxOut}
    (hok : push_update s caller repo head_commit ipfs_cid now = .ok out) :
    ∃ r, lookupA s.repos repo = some r ∧
      repo = Addr.repoA caller r.name ∧ r.owner = caller ∧
      strLen head_commit = 40 ∧ strLen ipfs_cid ≤ 64 ∧
      out = ⟨⟨updateA s.repos repo
          ({ r with head_commit := head_commit, ipfs_cid := ipfs_cid,
                    updated_at := now }),
          s.collabs, s.stars⟩,
        some (.repoPushed r.owner r.name head_commit ipfs_cid now),
        none, none⟩ := by
  simp only [push_update] at hok
  cases hl : lookupA s.repos repo with
  | none =>
    rw [hl] at hok
    cases hok
  | some r =>
    rw [hl] at hok
    dsimp only at hok
    split at hok
    · cases hok
    · split at hok
      · cases hok
      · split at hok
        · cases hok
        · split at hok
          · cases hok
          · split at hok
            · cases hok
            · cases hok
              next h1 _ h3 h4 h5 =>
              exact ⟨r, rfl, not_not.mp h1, not_not.mp h3,
                not_not.mp h4, by omega, rfl⟩

/-- Success inversion for `add_collaborator`. -/
theorem add_collaborator_ok_inv {s : State} {caller : Pubkey} {repo : Addr}
    {collaborator : Pubkey} {can_push : Bool} {now : Int} {out : TxOut}
    (hok : add_collaborator s caller repo collaborator can_push now =
      .ok out) :
    ∃ r, lookupA s.repos repo = some r ∧
      repo = Addr.repoA caller r.name ∧ r.owner = caller ∧
      lookupA s.collabs (Addr.collabA repo collaborator) = none ∧
      out = ⟨⟨s.repos,
          (Addr.collabA repo collaborator,
            ⟨repo, collaborator, can_push, now,
              canonicalBump (Addr.collabA repo collaborator)⟩) :: s.collabs,
          s.stars⟩,
        some (.collaboratorAdded repo collaborator can_push now),
        some (caller, Collaborator.SPACE), none⟩ := by
  simp only [add_collaborator] at hok
  cases hl : lookupA s.repos repo with
  | none =>
    rw [hl] at hok
    cases hok
  | some r =>
    rw [hl] at hok
    dsimp only at hok
    split at hok
    · cases hok
    · split at hok
      · cases hok
      · split at hok
        · cases hok
        · next h1 _ h3 =>
          cases hc : lookupA s.collabs (Addr.collabA repo collaborator) with
          | some c =>
            rw [hc] at hok
            cases hok
          | none =>
            rw [hc] at hok
            cases hok
            exact ⟨r, rfl, not_not.mp h1, not_not.mp h3, rfl, rfl⟩

/-- Success inversion for `remove_collaborator`. -/
theorem remove_collaborator_ok_inv {s : State} {caller : Pubkey}
    {repo collab_account : Addr} {out : TxOut}
    (hok : remove_collaborator s caller repo collab_account = .ok out) :
    ∃ r c, lookupA s.repos repo = some r ∧
      repo = Addr.repoA caller r.name ∧ r.owner = caller ∧
      lookupA s.collabs collab_account = some c ∧
      collab_account = Addr.collabA repo c.user ∧
      out = ⟨⟨s.repos, eraseA s.collabs collab_account, s.stars⟩,
        none, none, some (caller, Collaborator.SPACE)⟩ := by
  simp only [remove_collaborator] at hok
  cases hl : lookupA s.repos repo with
  | none =>
    rw [hl] at hok
    cases hok
  | some r =>
    rw [hl] at hok
    dsimp only at hok
    split at hok
    · cases hok
    · split at hok
      · cases hok
      · split at hok
        · cases hok
        · next h1 _ h3 =>
          cases hc : lookupA s.collabs collab_account with
          | none =>
            rw [hc] at hok
            cases hok
          | some c =>
            rw [hc] at hok
            dsimp only at hok
            split at hok
            · cases hok
            · split at hok
              · cases hok
              · next h4 _ =>
                cases hok
                exact ⟨r, c, rfl, not_not.mp h1, not_not.mp h3, rfl,
                  not_not.mp h4, rfl⟩

/-- Success inversion for `star_repo`. -/
theorem star_repo_ok_inv {s : State} {caller : Pubkey} {repo : Addr}
    {now : Int} {out : TxOut}
    (hok : star_repo s caller repo now = .ok out) :
    ∃ r, lookupA s.repos repo = some r ∧
      lookupA s.stars (Addr.starA caller repo) = none ∧
      out = ⟨⟨updateA s.repos repo
          ({ r with stars := if r.stars < u64Max then r.stars + 1
                             else r.stars }),
          s.collabs,
          (Addr.starA caller repo,
            ⟨caller, repo, now, canonicalBump (Addr.starA caller repo)⟩)
            :: s.stars⟩,
        some (.repoStarred caller repo now),
        some (caller, Star.SPACE), none⟩ := by
  simp only [star_repo] at hok
  cases hl : lookupA s.repos repo with
  | none =>
    rw [hl] at hok
    cases hok
  | some r =>
    rw [hl] at hok
    dsimp only at hok
    cases hst : lookupA s.stars (Addr.starA caller repo) with
    | some st =>
      rw [hst] at hok
      cases hok
    | none =>
      rw [hst] at hok
      cases hok
      exact ⟨r, rfl, rfl, rfl⟩

/-- Success inversion for `unstar_repo`. -/
theorem unstar_repo_ok_inv {s : State} {caller : Pubkey} {repo : Addr}
    {out : TxOut} (hok : unstar_repo s caller repo = .ok out) :
    ∃ r st, lookupA s.repos repo = some r ∧
      lookupA s.stars (Addr.starA caller repo) = some st ∧
      out = ⟨⟨updateA s.repos repo ({ r with stars := r.stars - 1 }),
          s.collabs, eraseA s.stars (Addr.starA caller repo)⟩,
        none, none, some (caller, Star.SPACE)⟩ := by
  simp only [unstar_repo] at hok
  cases hl : lookupA s.repos repo with
  | none =>
    rw [hl] at hok
    cases hok
  | some r =>
    rw [hl] at hok
    dsimp only at hok
    cases hst : lookupA s.stars (Addr.starA caller repo) with
    | none =>
      rw [hst] at hok
      cases hok
    | some st =>
      rw [hst] at hok
      dsimp only at hok
      split at hok
      · cases hok
      · cases hok
        exact ⟨r, st, rfl, rfl, rfl⟩

/-- Success inversion for `transfer_ownership`. -/
theorem transfer_ownership_ok_inv {s : State} {caller : Pubkey}
    {repo : Addr} {new_owner : Pubkey} {out : TxOut}
    (hok : transfer_ownership s caller repo new_owner = .ok out) :
    ∃ r, lookupA s.repos repo = some r ∧
      repo = Addr.repoA caller r.name ∧ r.owner = caller ∧
      out = ⟨⟨updateA s.repos repo ({ r with owner := new_owner }),
          s.collabs, s.stars⟩,
        some (.ownershipTransferred repo r.owner new_owner),
        none, none⟩ := by
  simp only [transfer_ownership] at hok
  cases hl : lookupA s.repos repo with
  | none =>
    rw [hl] at hok
    cases hok
  | some r =>
    rw [hl] at hok
    dsimp only at hok
    split at hok
    · cases hok
    · split at hok
      · cases hok
      · split at hok
        · cases hok
        · next h1 _ h3 =>
          cases hok
          exact ⟨r, rfl, not_not.mp h1, not_not.mp h3, rfl⟩

/-- Success inversion for `delete_repo`. -/
theorem delete_repo_ok_inv {s : State} {caller : Pubkey} {repo : Addr}
    {out : TxOut} (hok : delete_repo s caller repo = .ok out) :
    ∃ r, lookupA s.repos repo = some r ∧
      repo = Addr.repoA caller r.name ∧ r.owner = caller ∧
      out = ⟨⟨eraseA s.repos repo, s.collabs, s.stars⟩,
        none, none, some (caller, Repository.SPACE)⟩ := by
  simp only [delete_repo] at hok
  cases hl : lookupA s.repos repo with
  | none =>
    rw [hl] at hok
    cases hok
  | some r =>
    rw [hl] at hok
    dsimp only at hok
    split at hok
    · cases hok
    · split at hok
      · cases hok
      · split at hok
        · cases hok
        · next h1 _ h3 =>
          cases hok
          exact ⟨r, rfl, not_not.mp h1, not_not.mp h3, rfl⟩

/-- Every repository record's head commit is either empty (never set) or
exactly 40 bytes. -/
def headOk (s : State) : Prop :=
  ∀ a r, lookupA s.repos a = some r →
    r.head_commit = "" ∨ strLen r.head_commit = 40

theorem headOk_step {s : State} {op : Op} {out : TxOut}
    (hok : step s op = .ok out) (hs : headOk s) : headOk out.state := by
  cases op with
  | createRepo caller name description is_private now =>
    obtain ⟨-, rfl⟩ := create_repo_ok_inv hok
    intro a r h
    rw [lookupA_cons] at h
    split at h
    · cases h
      exact Or.inl rfl
    · exact hs a r h
  | pushUpdate caller repo head_commit ipfs_cid now =>
    obtain ⟨r0, hl, -, -, h40, -, rfl⟩ := push_update_ok_inv hok
    intro a r h
    rcases lookupA_updateA_some h with rfl | h'
    · exact Or.inr h40
    · exact hs a r h'
  | addCollaborator caller repo collaborator can_push now =>
    obtain ⟨r0, -, -, -, -, rfl⟩ := add_collaborator_ok_inv hok
    exact hs
  | removeCollaborator caller repo collab_account =>
    obtain ⟨r0, c, -, -, -, -, -, rfl⟩ := remove_collaborator_ok_inv hok
    exact hs
  | starRepo caller repo now =>
    obtain ⟨r0, hl, -, rfl⟩ := star_repo_ok_inv hok
    intro a r h
    rcases lookupA_updateA_some h with rfl | h'
    · exact hs repo r0 hl
    · exact hs a r h'
  | unstarRepo caller repo =>
    obtain ⟨r0, st, hl, -, rfl⟩ := unstar_repo_ok_inv hok
    intro a r h
    rcases lookupA_updateA_some h with rfl | h'
    · exact hs repo r0 hl
    · exact hs a r h'
  | transferOwnership caller repo new_owner =>
    obtain ⟨r0, hl, -, -, rfl⟩ := transfer_ownership_ok_inv hok
    intro a r h
    rcases lookupA_updateA_some h with rfl | h'
    · exact hs repo r0 hl
    · exact hs a r h'
  | deleteRepo caller repo =>
    obtain ⟨r0, -, -, -, rfl⟩ := delete_repo_ok_inv hok
    intro a r h
    exact hs a r (lookupA_eraseA_some h)

theorem headOk_runOps {ops : List Op} {s s' : State}
    (h : runOps s ops = .ok s') (hs : headOk s) : headOk s' := by
  induction ops generalizing s with
  | nil =>
    simp only [runOps] at h
    cases h
    exact hs
  | cons op rest ih =>
    simp only [runOps] at h
    cases hst : step s op with
    | error e =>
      rw [hst] at h
      cases h
    | ok out =>
      rw [hst] at h
      exact ih h (headOk_step hst hs)

/-- C6: in every state reachable from the empty ledger, a repository's head
commit is either empty (never set) or exactly 40 bytes long — never a
partial hash; every operation preserves this. -/
theorem head_commit_never_partial (ops : List Op) (s : State)
    (h : runOps initState ops = .ok s) :
    ∀ a r, lookupA s.repos a = some r →
      r.head_commit = "" ∨ strLen r.head_commit = 40 :=
  headOk_runOps h (fun a r hr => by simp [initState, lookupA] at hr)

/-- Witness for `head_commit_never_partial`: the repository produced by a
create followed by a push of a 40-byte commit hash. -/
theorem head_commit_never_partial_witness :
    (⟨1, "n", "d", false, 0, 1,
      "aaaaaaaaaaaaaaaaaaaaaaaaaaaaaaaaaaaaaaaa", "c", 0, 255⟩ :
        Repository).head_commit = "" ∨
    strLen (⟨1, "n", "d", false, 0, 1,
      "aaaaaaaaaaaaaaaaaaaaaaaaaaaaaaaaaaaaaaaa", "c", 0, 255⟩ :
        Repository).head_commit = 40 :=
  head_commit_never_partial
    [.createRepo 1 "n" "d" false 0,
     .pushUpdate 1 (Addr.repoA 1 "n")
       "aaaaaaaaaaaaaaaaaaaaaaaaaaaaaaaaaaaaaaaa" "c" 1]
    ⟨[(Addr.repoA 1 "n",
      ⟨1, "n", "d", false, 0, 1,
        "aaaaaaaaaaaaaaaaaaaaaaaaaaaaaaaaaaaaaaaa", "c", 0, 255⟩)], [], []⟩
    (by rfl) (Addr.repoA 1 "n")
    ⟨1, "n", "d", false, 0, 1,
      "aaaaaaaaaaaaaaaaaaaaaaaaaaaaaaaaaaaaaaaa", "c", 0, 255⟩
    (by decide)

/-- The star-count correspondence on raw stores, together with the
bookkeeping facts that make it inductive: every Star record's address
re-derives from its stored fields, every Star record targets an existing
repository, and star addresses are duplicate-free. -/
def StarInvL (repos : List (Addr × Repository))
    (stars : List (Addr × Star)) : Prop :=
  (∀ a r, lookupA repos a = some r → r.stars = countStars stars a) ∧
  (∀ k st, lookupA stars k = some st →
    k = Addr.starA st.user st.repository ∧
    ∃ r, lookupA repos st.repository = some r) ∧
  (stars.map Prod.fst).Nodup

/-- A repository's stars field equals the number of currently-open Star
records targeting it, for every repository in the state (plus the
bookkeeping facts that make this inductive). -/
def StarInv (s : State) : Prop := StarInvL s.repos s.stars

theorem StarInvL_update {repos : List (Addr × Repository)}
    {stars : List (Addr × Star)} {repo : Addr} {r0 : Repository}
    (h : StarInvL repos stars) (hl : lookupA repos repo = some r0)
    (r2 : Repository) (hst : r2.stars = r0.stars) :
    StarInvL (updateA repos repo r2) stars := by
  obtain ⟨h1, h2, h3⟩ := h
  refine ⟨?_, ?_, h3⟩
  · intro a r hr
    by_cases ha : repo = a
    · subst ha
      rw [lookupA_updateA_self r2 hl] at hr
      cases hr
      rw [hst]
      exact h1 repo r0 hl
    · rw [lookupA_updateA_ne repos r2 ha] at hr
      exact h1 a r hr
  · intro k st hk
    obtain ⟨hc, r, hr⟩ := h2 k st hk
    refine ⟨hc, ?_⟩
    by_cases ha : repo = st.repository
    · refine ⟨r2, ?_⟩
      rw [← ha]
      exact lookupA_updateA_self r2 hl
    · refine ⟨r, ?_⟩
      rw [lookupA_updateA_ne repos r2 ha]
      exact hr

theorem StarInvL_create {repos : List (Addr × Repository)}
    {stars : List (Addr × Star)} {addr : Addr}
    (h : StarInvL repos stars) (hfree : lookupA repos addr = none)
    (rec : Repository) (hst : rec.stars = 0) :
    StarInvL ((addr, rec) :: repos) stars := by
  obtain ⟨h1, h2, h3⟩ := h
  have hcount : countStars stars addr = 0 := by
    rw [countStars, List.countP_eq_zero]
    intro p hp
    obtain ⟨k, st⟩ := p
    have hlk := lookupA_of_mem_nodup hp h3
    obtain ⟨-, r, hr⟩ := h2 k st hlk
    simp only [decide_eq_true_eq]
    intro he
    rw [he, hfree] at hr
    cases hr
  refine ⟨?_, ?_, h3⟩
  · intro a r hr
    rw [lookupA_cons] at hr
    split at hr
    · next he =>
      cases hr
      rw [hst, ← he, hcount]
    · exact h1 a r hr
  · intro k st hk
    obtain ⟨hc, r, hr⟩ := h2 k st hk
    refine ⟨hc, ?_⟩
    by_cases ha : addr = st.repository
    · refine ⟨rec, ?_⟩
      rw [lookupA_cons, if_pos ha]
    · refine ⟨r, ?_⟩
      rw [lookupA_cons, if_neg ha]
      exact hr

theorem StarInvL_star {repos : List (Addr × Repository)}
    {stars : List (Addr × Star)} {repo : Addr} {r0 : Repository}
    {caller : Pubkey} (h : StarInvL repos stars)
    (hl : lookupA repos repo = some r0)
    (hfree : lookupA stars (Addr.starA caller repo) = none)
    (now : Int) (bp : Nat) :
    StarInvL (updateA repos repo ({ r0 with stars := r0.stars + 1 }))
      ((Addr.starA caller repo, (⟨caller, repo, now, bp⟩ : Star))
        :: stars) := by
  obtain ⟨h1, h2, h3⟩ := h
  refine ⟨?_, ?_, ?_⟩
  · intro a r hr
    by_cases ha : repo = a
    · subst ha
      rw [lookupA_updateA_self _ hl] at hr
      cases hr
      dsimp only
      simp only [countStars, List.countP_cons, decide_eq_true_eq]
      rw [← countStars, ← h1 repo r0 hl]
      simp
    · rw [lookupA_updateA_ne _ _ ha] at hr
      rw [h1 a r hr]
      simp only [countStars, List.countP_cons]
      have hd : decide ((⟨caller, repo, now, bp⟩ : Star).repository = a)
          = false := by
        simp only [decide_eq_false_iff_not]
        exact ha
      rw [hd]
      simp
  · intro k st hk
    rw [lookupA_cons] at hk
    split at hk
    · next he =>
      cases hk
      constructor
      · rw [← he]
      · refine ⟨{ r0 with stars := r0.stars + 1 }, ?_⟩
        exact lookupA_updateA_self _ hl
    · obtain ⟨hc, r, hr⟩ := h2 k st hk
      refine ⟨hc, ?_⟩
      by_cases ha : repo = st.repository
      · refine ⟨{ r0 with stars := r0.stars + 1 }, ?_⟩
        rw [← ha]
        exact lookupA_updateA_self _ hl
      · refine ⟨r, ?_⟩
        rw [lookupA_updateA_ne repos _ ha]
        exact hr
  · simp only [List.map_cons, List.nodup_cons]
    exact ⟨not_mem_of_lookupA_eq_none hfree, h3⟩

theorem StarInvL_unstar {repos : List (Addr × Repository)}
    {stars : List (Addr × Star)} {repo : Addr} {r0 : Repository}
    {caller : Pubkey} {st1 : Star} (h : StarInvL repos stars)
    (hl : lookupA repos repo = some r0)
    (hst : lookupA stars (Addr.starA caller repo) = some st1) :
    StarInvL (updateA repos repo ({ r0 with stars := r0.stars - 1 }))
      (eraseA stars (Addr.starA caller repo)) ∧
    st1.repository = repo ∧
    countStars (eraseA stars (Addr.starA caller repo)) repo + 1 =
      countStars stars repo ∧
    (∀ a, a ≠ repo →
      countStars (eraseA stars (Addr.starA caller repo)) a =
        countStars stars a) := by
  obtain ⟨h1, h2, h3⟩ := h
  obtain ⟨hc, rt, hrt⟩ := h2 (Addr.starA caller repo) st1 hst
  have hrepo : st1.repository = repo := by
    have := (Addr.starA.injEq caller repo st1.user st1.repository).mp hc
    exact this.2.symm
  have hdelta := countP_eraseA
    (fun p => decide (p.2.repository = repo)) h3 hst
  have hdtrue : (if (fun p => decide (p.2.repository = repo))
      (Addr.starA caller repo, st1) = true then 1 else 0) = 1 := by
    simp [hrepo]
  rw [hdtrue] at hdelta
  have hdelta2 : countStars (eraseA stars (Addr.starA caller repo)) repo + 1
      = countStars stars repo := by
    simpa [countStars] using hdelta
  have hother : ∀ a, a ≠ repo →
      countStars (eraseA stars (Addr.starA caller repo)) a =
        countStars stars a := by
    intro a ha
    have hd := countP_eraseA
      (fun p => decide (p.2.repository = a)) h3 hst
    have hdfalse : (if (fun p => decide (p.2.repository = a))
        (Addr.starA caller repo, st1) = true then 1 else 0) = 0 := by
      simp only [decide_eq_true_eq]
      rw [if_neg]
      rw [hrepo]
      exact Ne.symm ha
    rw [hdfalse] at hd
    simpa [countStars] using hd
  refine ⟨⟨?_, ?_, ?_⟩, hrepo, hdelta2, hother⟩
  · intro a r hr
    by_cases ha : repo = a
    · subst ha
      rw [lookupA_updateA_self _ hl] at hr
      cases hr
      dsimp only
      have hh := h1 repo r0 hl
      omega
    · rw [lookupA_updateA_ne _ _ ha] at hr
      rw [h1 a r hr, hother a (Ne.symm ha)]
  · intro k st hk
    have hk0 := lookupA_eraseA_some hk
    obtain ⟨hck, r, hr⟩ := h2 k st hk0
    refine ⟨hck, ?_⟩
    by_cases ha : repo = st.repository
    · refine ⟨{ r0 with stars := r0.stars - 1 }, ?_⟩
      rw [← ha]
      exact lookupA_updateA_self _ hl
    · refine ⟨r, ?_⟩
      rw [lookupA_updateA_ne repos _ ha]
      exact hr
  · exact h3.sublist (eraseA_map_fst_sublist stars (Addr.starA caller repo))

/-- C1 (amended): the star-count correspondence — every repository's stars
field equals the number of currently-open Star records targeting it — is
preserved by every operation except `delete_repo` (as long as the count
stays below `u64::MAX`, where the increment clamps); `star_repo` increments
both the field and the record count by exactly one, `unstar_repo`
decrements both by exactly one, and no other operation changes either.
`delete_repo` breaks the correspondence (see the counterexample): it closes
the repository but orphans its Star records. -/
theorem star_count_correspondence (s : State) (op : Op) (out : TxOut)
    (hInv : StarInv s) (hok : step s op = .ok out)
    (hnotdel : ∀ caller a, op ≠ .deleteRepo caller a)
    (hcap : ∀ caller a now, op = .starRepo caller a now →
      ∀ r, lookupA s.repos a = some r → r.stars < u64Max) :
    StarInv out.state ∧
    (∀ caller a now, op = .starRepo caller a now →
      starCount out.state a = starCount s a + 1 ∧
      (∀ r r2, lookupA s.repos a = some r →
        lookupA out.state.repos a = some r2 → r2.stars = r.stars + 1)) ∧
    (∀ caller a, op = .unstarRepo caller a →
      starCount out.state a + 1 = starCount s a ∧
      (∀ r r2, lookupA s.repos a = some r →
        lookupA out.state.repos a = some r2 → r2.stars + 1 = r.stars)) := by
  cases op with
  | createRepo caller name description is_private now =>
    obtain ⟨hfree, rfl⟩ := create_repo_ok_inv hok
    exact ⟨StarInvL_create hInv hfree _ rfl,
      fun c a n h => Op.noConfusion h, fun c a h => Op.noConfusion h⟩
  | pushUpdate caller repo head_commit ipfs_cid now =>
    obtain ⟨r0, hl, -, -, -, -, rfl⟩ := push_update_ok_inv hok
    exact ⟨StarInvL_update hInv hl _ rfl,
      fun c a n h => Op.noConfusion h, fun c a h => Op.noConfusion h⟩
  | addCollaborator caller repo collaborator can_push now =>
    obtain ⟨r0, hl, -, -, -, rfl⟩ := add_collaborator_ok_inv hok
    exact ⟨hInv, fun c a n h => Op.noConfusion h,
      fun c a h => Op.noConfusion h⟩
  | removeCollaborator caller repo collab_account =>
    obtain ⟨r0, c0, hl, -, -, -, -, rfl⟩ := remove_collaborator_ok_inv hok
    exact ⟨hInv, fun c a n h => Op.noConfusion h,
      fun c a h => Op.noConfusion h⟩
  | starRepo caller repo now =>
    obtain ⟨r0, hl, hfree, rfl⟩ := star_repo_ok_inv hok
    have hcap2 : r0.stars < u64Max := hcap caller repo now rfl r0 hl
    have hif : (if r0.stars < u64Max then r0.stars + 1 else r0.stars) =
        r0.stars + 1 := if_pos hcap2
    refine ⟨?_, ?_, fun c a h => Op.noConfusion h⟩
    · have h2 := StarInvL_star hInv hl hfree now
        (canonicalBump (Addr.starA caller repo))
      simp only [StarInv, hif]
      exact h2
    · intro c a n h
      injection h with h1 h2 h3
      subst h1
      subst h2
      subst h3
      constructor
      · simp only [starCount, countStars, List.countP_cons,
          decide_eq_true_eq]
        simp
      · intro r r2 hr hr2
        rw [hl] at hr
        cases hr
        rw [lookupA_updateA_self _ hl] at hr2
        cases hr2
        dsimp only
        exact hif
  | unstarRepo caller repo =>
    obtain ⟨r0, st1, hl, hst, rfl⟩ := unstar_repo_ok_inv hok
    obtain ⟨hInv2, hrepo, hdelta, hother⟩ := StarInvL_unstar hInv hl hst
    refine ⟨hInv2, fun c a n h => Op.noConfusion h, ?_⟩
    intro c a h
    injection h with h1 h2
    subst h1
    subst h2
    constructor
    · exact hdelta
    · intro r r2 hr hr2
      rw [hl] at hr
      cases hr
      rw [lookupA_updateA_self _ hl] at hr2
      cases hr2
      dsimp only
      have hcnt := hInv.1 repo r0 hl
      have hpos : countStars s.stars repo ≥ 1 := by omega
      omega
  | transferOwnership caller repo new_owner =>
    obtain ⟨r0, hl, -, -, rfl⟩ := transfer_ownership_ok_inv hok
    exact ⟨StarInvL_update hInv hl _ rfl,
      fun c a n h => Op.noConfusion h, fun c a h => Op.noConfusion h⟩
  | deleteRepo caller repo =>
    exact absurd rfl (hnotdel caller repo)

/-- C1 counterexample to the claim as stated: `delete_repo` orphans Star
records, so after delete and re-create at the same derived address the
repository's stars field is 0 while one open Star record still targets that
repository — the correspondence does not hold in every reachable state. -/
theorem star_count_claim_counterexample :
    runOps initState
      [.createRepo 1 "n" "" false 0,
       .starRepo 2 (Addr.repoA 1 "n") 1,
       .deleteRepo 1 (Addr.repoA 1 "n"),
       .createRepo 1 "n" "" false 2] = .ok
      (⟨[(Addr.repoA 1 "n", ⟨1, "n", "", false, 2, 2, "", "", 0, 255⟩)],
        [],
        [(Addr.starA 2 (Addr.repoA 1 "n"),
          ⟨2, Addr.repoA 1 "n", 1, 255⟩)]⟩ : State) ∧
    lookupA [(Addr.repoA 1 "n",
        (⟨1, "n", "", false, 2, 2, "", "", 0, 255⟩ : Repository))]
      (Addr.repoA 1 "n") =
      some ⟨1, "n", "", false, 2, 2, "", "", 0, 255⟩ ∧
    (⟨1, "n", "", false, 2, 2, "", "", 0, 255⟩ : Repository).stars = 0 ∧
    starCount
      (⟨[(Addr.repoA 1 "n", ⟨1, "n", "", false, 2, 2, "", "", 0, 255⟩)],
        [],
        [(Addr.starA 2 (Addr.repoA 1 "n"),
          ⟨2, Addr.repoA 1 "n", 1, 255⟩)]⟩ : State)
      (Addr.repoA 1 "n") = 1 :=
  ⟨rfl, rfl, rfl, rfl⟩

/-- Witness for `star_count_correspondence`: starring the sample repository
bumps both the field and the open-record count from 0 to 1. -/
theorem star_count_correspondence_witness :
    starCount
      (⟨[(Addr.repoA 1 "n", ⟨1, "n", "d", false, 0, 0, "", "", 1, 255⟩)],
        [],
        [(Addr.starA 2 (Addr.repoA 1 "n"),
          ⟨2, Addr.repoA 1 "n", 9, 255⟩)]⟩ : State) (Addr.repoA 1 "n") =
      starCount sampleState (Addr.repoA 1 "n") + 1 ∧
    StarInv
      (⟨[(Addr.repoA 1 "n", ⟨1, "n", "d", false, 0, 0, "", "", 1, 255⟩)],
        [],
        [(Addr.starA 2 (Addr.repoA 1 "n"),
          ⟨2, Addr.repoA 1 "n", 9, 255⟩)]⟩ : State) := by
  have hinv : StarInv sampleState := by
    refine ⟨?_, ?_, ?_⟩
    · intro a r hr
      simp only [sampleState] at hr
      rw [lookupA_cons] at hr
      split at hr
      · cases hr
        rfl
      · simp [lookupA] at hr
    · intro k st hk
      simp [sampleState, lookupA] at hk
    · simp [sampleState]
  have h := star_count_correspondence sampleState
    (.starRepo 2 (Addr.repoA 1 "n") 9)
    ⟨⟨[(Addr.repoA 1 "n", ⟨1, "n", "d", false, 0, 0, "", "", 1, 255⟩)],
      [],
      [(Addr.starA 2 (Addr.repoA 1 "n"), ⟨2, Addr.repoA 1 "n", 9, 255⟩)]⟩,
      some (.repoStarred 2 (Addr.repoA 1 "n") 9), some (2, Star.SPACE),
      none⟩
    hinv (by rfl) (fun c a hne => Op.noConfusion hne)
    (by
      intro c a n he r hr
      cases he
      rw [show lookupA sampleState.repos (Addr.repoA 1 "n") =
        some sampleRepo from rfl] at hr
      cases hr
      show (0 : Nat) < u64Max
      decide)
  exact ⟨(h.2.1 2 (Addr.repoA 1 "n") 9 rfl).1, h.1⟩

/-- Overwrite a repository record's privacy flag. -/
def privSet (b : Bool) (r : Repository) : Repository :=
  { r with is_private := b }

/-- Overwrite the privacy flag of the repository at one address (a no-op on
every other record). -/
def mapPriv (a : Addr) (b : Bool) (l : List (Addr × Repository)) :
    List (Addr × Repository) :=
  l.map (fun p => if p.1 = a then (p.1, privSet b p.2) else p)

/-- The state identical to `s` except for the privacy flag of the
repository at address `a`. -/
def setPriv (s : State) (a : Addr) (b : Bool) : State :=
  ⟨mapPriv a b s.repos, s.collabs, s.stars⟩

theorem mapPriv_cons_ne {k a : Addr} (b : Bool) (v : Repository)
    (l : List (Addr × Repository)) (h : k ≠ a) :
    mapPriv a b ((k, v) :: l) = (k, v) :: mapPriv a b l := by
  simp [mapPriv, h]

theorem mapPriv_cons_self {k : Addr} (b : Bool) (v : Repository)
    (l : List (Addr × Repository)) :
    mapPriv k b ((k, v) :: l) = (k, privSet b v) :: mapPriv k b l := by
  simp [mapPriv]

theorem updateA_cons {α : Type} (k : Addr) (v : α) (l : List (Addr × α))
    (x : Addr) (w : α) :
    updateA ((k, v) :: l) x w =
      if k = x then (k, w) :: l else (k, v) :: updateA l x w := rfl

theorem eraseA_cons {α : Type} (k : Addr) (v : α) (l : List (Addr × α))
    (x : Addr) :
    eraseA ((k, v) :: l) x =
      if k = x then eraseA l x else (k, v) :: eraseA l x := rfl

theorem lookupA_mapPriv (l : List (Addr × Repository)) (a : Addr) (b : Bool)
    (x : Addr) :
    lookupA (mapPriv a b l) x = (lookupA l x).map
      (fun r => if x = a then privSet b r else r) := by
  induction l with
  | nil => simp [mapPriv, lookupA]
  | cons p rest ih =>
    obtain ⟨k, v⟩ := p
    by_cases hk : k = a
    · subst hk
      rw [mapPriv_cons_self, lookupA_cons, lookupA_cons]
      by_cases hx : k = x
      · rw [if_pos hx, if_pos hx]
        subst hx
        simp
      · rw [if_neg hx, if_neg hx]
        exact ih
    · rw [mapPriv_cons_ne b v rest hk, lookupA_cons, lookupA_cons]
      by_cases hx : k = x
      · rw [if_pos hx, if_pos hx]
        subst hx
        simp [hk]
      · rw [if_neg hx, if_neg hx]
        exact ih

theorem updateA_mapPriv (l : List (Addr × Repository)) (a : Addr) (b : Bool)
    (x : Addr) (w : Repository) :
    updateA (mapPriv a b l) x (if x = a then privSet b w else w) =
      mapPriv a b (updateA l x w) := by
  induction l with
  | nil => simp [mapPriv, updateA]
  | cons p rest ih =>
    obtain ⟨k, v⟩ := p
    by_cases hk : k = a
    · subst hk
      by_cases hx : k = x
      · subst hx
        rw [mapPriv_cons_self, updateA_cons, if_pos rfl, updateA_cons,
          if_pos rfl, if_pos rfl, mapPriv_cons_self]
      · have hx2 : ¬x = k := fun h => hx h.symm
        rw [if_neg hx2] at ih
        rw [mapPriv_cons_self, updateA_cons, if_neg hx, updateA_cons,
          if_neg hx, mapPriv_cons_self, if_neg hx2, ih]
    · by_cases hx : k = x
      · subst hx
        rw [mapPriv_cons_ne b v rest hk, updateA_cons, if_pos rfl,
          if_neg hk, updateA_cons, if_pos rfl,
          mapPriv_cons_ne b w rest hk]
      · rw [mapPriv_cons_ne b v rest hk, updateA_cons, if_neg hx,
          updateA_cons, if_neg hx, mapPriv_cons_ne b v
            (updateA rest x w) hk, ih]

theorem eraseA_mapPriv (l : List (Addr × Repository)) (a : Addr) (b : Bool)
    (x : Addr) :
    eraseA (mapPriv a b l) x = mapPriv a b (eraseA l x) := by
  induction l with
  | nil => simp [mapPriv, eraseA]
  | cons p rest ih =>
    obtain ⟨k, v⟩ := p
    by_cases hk : k = a
    · subst hk
      rw [mapPriv_cons_self, eraseA_cons, eraseA_cons]
      by_cases hx : k = x
      · rw [if_pos hx, if_pos hx]
        exact ih
      · rw [if_neg hx, if_neg hx, ih, mapPriv_cons_self]
    · rw [mapPriv_cons_ne b v rest hk, eraseA_cons, eraseA_cons]
      by_cases hx : k = x
      · rw [if_pos hx, if_pos hx]
        exact ih
      · rw [if_neg hx, if_neg hx, ih, mapPriv_cons_ne b v (eraseA rest x) hk]

/-- Map a successful outcome through the privacy-flag overwrite. -/
def privOut (a : Addr) (b : Bool) (o : TxOut) : TxOut :=
  ⟨setPriv o.state a b, o.event, o.charge, o.refund⟩

theorem create_repo_priv (s : State) (a : Addr) (b : Bool) (r : Repository)
    (caller : Pubkey) (name description : String) (is_private : Bool)
    (now : Int) (hr : lookupA s.repos a = some r) :
    create_repo (setPriv s a b) caller name description is_private now =
      (create_repo s caller name description is_private now).map
        (privOut a b) := by
  simp only [create_repo, setPriv]
  rw [lookupA_mapPriv]
  cases hl : lookupA s.repos (Addr.repoA caller name) with
  | some r1 => rfl
  | none =>
    have hna : Addr.repoA caller name ≠ a := by
      intro he
      rw [he, hr] at hl
      cases hl
    dsimp only [Option.map]
    split_ifs <;> try rfl
    simp only [Except.map, privOut, setPriv]
    rw [mapPriv_cons_ne b _ s.repos hna]

theorem push_update_priv (s : State) (a : Addr) (b : Bool) (r : Repository)
    (caller : Pubkey) (repo : Addr) (head_commit ipfs_cid : String)
    (now : Int) (hr : lookupA s.repos a = some r) :
    push_update (setPriv s a b) caller repo head_commit ipfs_cid now =
      (push_update s caller repo head_commit ipfs_cid now).map
        (privOut a b) := by
  simp only [push_update, setPriv]
  rw [lookupA_mapPriv]
  cases hl : lookupA s.repos repo with
  | none => rfl
  | some r0 =>
    dsimp only [Option.map]
    by_cases hra : repo = a
    · subst hra
      rw [if_pos rfl]
      dsimp only [privSet]
      split_ifs <;> try rfl
      simp only [Except.map, privOut, setPriv]
      rw [← updateA_mapPriv s.repos repo b repo]
      rw [if_pos rfl]
      rfl
    · rw [if_neg hra]
      split_ifs <;> try rfl
      simp only [Except.map, privOut, setPriv]
      rw [← updateA_mapPriv s.repos a b repo]
      rw [if_neg hra]

theorem add_collaborator_priv (s : State) (a : Addr) (b : Bool)
    (r : Repository) (caller : Pubkey) (repo : Addr) (collaborator : Pubkey)
    (can_push : Bool) (now : Int) (hr : lookupA s.repos a = some r) :
    add_collaborator (setPriv s a b) caller repo collaborator can_push now =
      (add_collaborator s caller repo collaborator can_push now).map
        (privOut a b) := by
  simp only [add_collaborator, setPriv]
  rw [lookupA_mapPriv]
  cases hl : lookupA s.repos repo with
  | none => rfl
  | some r0 =>
    dsimp only [Option.map]
    by_cases hra : repo = a
    · subst hra
      rw [if_pos rfl]
      dsimp only [privSet]
      split_ifs <;> try rfl
      cases hc : lookupA s.collabs (Addr.collabA repo collaborator) <;> rfl
    · rw [if_neg hra]
      split_ifs <;> try rfl
      cases hc : lookupA s.collabs (Addr.collabA repo collaborator) <;> rfl

theorem remove_collaborator_priv (s : State) (a : Addr) (b : Bool)
    (r : Repository) (caller : Pubkey) (repo collab_account : Addr)
    (hr : lookupA s.repos a = some r) :
    remove_collaborator (setPriv s a b) caller repo collab_account =
      (remove_collaborator s caller repo collab_account).map
        (privOut a b) := by
  simp only [remove_collaborator, setPriv]
  rw [lookupA_mapPriv]
  cases hl : lookupA s.repos repo with
  | none => rfl
  | some r0 =>
    dsimp only [Option.map]
    by_cases hra : repo = a
    · subst hra
      rw [if_pos rfl]
      dsimp only [privSet]
      split_ifs <;> try rfl
      cases hc : lookupA s.collabs collab_account with
      | none => rfl
      | some c =>
        dsimp only
        split_ifs <;> rfl
    · rw [if_neg hra]
      split_ifs <;> try rfl
      cases hc : lookupA s.collabs collab_account with
      | none => rfl
      | some c =>
        dsimp only
        split_ifs <;> rfl

theorem star_repo_priv (s : State) (a : Addr) (b : Bool) (r : Repository)
    (caller : Pubkey) (repo : Addr) (now : Int)
    (hr : lookupA s.repos a = some r) :
    star_repo (setPriv s a b) caller repo now =
      (star_repo s caller repo now).map (privOut a b) := by
  simp only [star_repo, setPriv]
  rw [lookupA_mapPriv]
  cases hl : lookupA s.repos repo with
  | none => rfl
  | some r0 =>
    dsimp only [Option.map]
    by_cases hra : repo = a
    · subst hra
      rw [if_pos rfl]
      dsimp only [privSet]
      cases hst : lookupA s.stars (Addr.starA caller repo) with
      | some st => rfl
      | none =>
        simp only [Except.map, privOut, setPriv]
        rw [← updateA_mapPriv s.repos repo b repo]
        rw [if_pos rfl]
        rfl
    · rw [if_neg hra]
      cases hst : lookupA s.stars (Addr.starA caller repo) with
      | some st => rfl
      | none =>
        simp only [Except.map, privOut, setPriv]
        rw [← updateA_mapPriv s.repos a b repo]
        rw [if_neg hra]

theorem unstar_repo_priv (s : State) (a : Addr) (b : Bool) (r : Repository)
    (caller : Pubkey) (repo : Addr) (hr : lookupA s.repos a = some r) :
    unstar_repo (setPriv s a b) caller repo =
      (unstar_repo s caller repo).map (privOut a b) := by
  simp only [unstar_repo, setPriv]
  rw [lookupA_mapPriv]
  cases hl : lookupA s.repos repo with
  | none => rfl
  | some r0 =>
    dsimp only [Option.map]
    by_cases hra : repo = a
    · subst hra
      rw [if_pos rfl]
      dsimp only [privSet]
      cases hst : lookupA s.stars (Addr.starA caller repo) with
      | none => rfl
      | some st =>
        dsimp only
        split_ifs <;> try rfl
        simp only [Except.map, privOut, setPriv]
        rw [← updateA_mapPriv s.repos repo b repo]
        rw [if_pos rfl]
        rfl
    · rw [if_neg hra]
      cases hst : lookupA s.stars (Addr.starA caller repo) with
      | none => rfl
      | some st =>
        dsimp only
        split_ifs <;> try rfl
        simp only [Except.map, privOut, setPriv]
        rw [← updateA_mapPriv s.repos a b repo]
        rw [if_neg hra]

theorem transfer_ownership_priv (s : State) (a : Addr) (b : Bool)
    (r : Repository) (caller : Pubkey) (repo : Addr) (new_owner : Pubkey)
    (hr : lookupA s.repos a = some r) :
    transfer_ownership (setPriv s a b) caller repo new_owner =
      (transfer_ownership s caller repo new_owner).map (privOut a b) := by
  simp only [transfer_ownership, setPriv]
  rw [lookupA_mapPriv]
  cases hl : lookupA s.repos repo with
  | none => rfl
  | some r0 =>
    dsimp only [Option.map]
    by_cases hra : repo = a
    · subst hra
      rw [if_pos rfl]
      dsimp only [privSet]
      split_ifs <;> try rfl
      simp only [Except.map, privOut, setPriv]
      rw [← updateA_mapPriv s.repos repo b repo]
      rw [if_pos rfl]
      rfl
    · rw [if_neg hra]
      split_ifs <;> try rfl
      simp only [Except.map, privOut, setPriv]
      rw [← updateA_mapPriv s.repos a b repo]
      rw [if_neg hra]

theorem delete_repo_priv (s : State) (a : Addr) (b : Bool) (r : Repository)
    (caller : Pubkey) (repo : Addr) (hr : lookupA s.repos a = some r) :
    delete_repo (setPriv s a b) caller repo =
      (delete_repo s caller repo).map (privOut a b) := by
  simp only [delete_repo, setPriv]
  rw [lookupA_mapPriv]
  cases hl : lookupA s.repos repo with
  | none => rfl
  | some r0 =>
    dsimp only [Option.map]
    by_cases hra : repo = a
    · subst hra
      rw [if_pos rfl]
      dsimp only [privSet]
      split_ifs <;> try rfl
      simp only [Except.map, privOut, setPriv]
      rw [eraseA_mapPriv]
    · rw [if_neg hra]
      split_ifs <;> try rfl
      simp only [Except.map, privOut, setPriv]
      rw [eraseA_mapPriv]

/-- C10: no operation's authorization or outcome depends on a repository's
privacy flag.  Starting from two states that differ only in the
`is_private` field of the repository at address `a`, every operation fails
with the same error or succeeds with the same event, charge and refund, and
post-states that again differ only in that repository's privacy flag — in
particular, any user may star a private repository. -/
theorem privacy_noninterference (s : State) (a : Addr) (b : Bool)
    (r : Repository) (op : Op) (hr : lookupA s.repos a = some r) :
    step (setPriv s a b) op = (step s op).map (privOut a b) := by
  cases op with
  | createRepo caller name description is_private now =>
    exact create_repo_priv s a b r caller name description is_private now hr
  | pushUpdate caller repo head_commit ipfs_cid now =>
    exact push_update_priv s a b r caller repo head_commit ipfs_cid now hr
  | addCollaborator caller repo collaborator can_push now =>
    exact add_collaborator_priv s a b r caller repo collaborator can_push
      now hr
  | removeCollaborator caller repo collab_account =>
    exact remove_collaborator_priv s a b r caller repo collab_account hr
  | starRepo caller repo now =>
    exact star_repo_priv s a b r caller repo now hr
  | unstarRepo caller repo =>
    exact unstar_repo_priv s a b r caller repo hr
  | transferOwnership caller repo new_owner =>
    exact transfer_ownership_priv s a b r caller repo new_owner hr
  | deleteRepo caller repo =>
    exact delete_repo_priv s a b r caller repo hr

/-- Witness for `privacy_noninterference`: making the sample repository
private changes nothing about a stranger starring it. -/
theorem privacy_noninterference_witness :
    step (setPriv sampleState (Addr.repoA 1 "n") true)
      (.starRepo 2 (Addr.repoA 1 "n") 9) =
    (step sampleState (.starRepo 2 (Addr.repoA 1 "n") 9)).map
      (privOut (Addr.repoA 1 "n") true) :=
  privacy_noninterference sampleState (Addr.repoA 1 "n") true sampleRepo
    (.starRepo 2 (Addr.repoA 1 "n") 9) (by rfl)

end Vanish
